import Mathlib

/-!
Verification of the PC_Marketplace listing-search core.

This file shallowly embeds the search/filter engine of the repository:

* `fuzzy_search` (src/listings/views.py, lines 57-89) together with a model
  of the external library calls it makes (rapidfuzz's `process.extract`,
  `fuzz.token_set_ratio` and `fuzz.partial_ratio`);
* `gather_filters` (src/listings/views.py, lines 167-242);
* the filtering step of `search_listings` (src/listings/views.py, lines 122-126);
* `build_filter_fields` (src/listings/views.py, lines 244-324);
* `load_product_model` (src/listings/views.py, lines 146-165);
* `ListingImage.save` (src/listings/models.py, lines 96-100);
* the concrete field tables of the `Listing` and `CPU` Django models.

Similarity scores are 0-100 valued rationals; they are represented by the
`Frac` type (a numerator/denominator pair of naturals with a positivity
proof) so that every score computation is kernel-executable.  Python machine
floats never influence a compared score here (all rapidfuzz scores are exact
rationals), and decimal/float column values are likewise modelled as exact
rationals.
-/

namespace PCM

/-- Exact nonnegative rational used for similarity scores: `num / den` with
`den` positive.  Values are not normalised; all comparisons cross-multiply. -/
structure Frac where
  num : Nat
  den : Nat
  den_pos : 0 < den

/-- Score comparison `a <= b`, by cross multiplication. -/
def Frac.le (a b : Frac) : Bool :=
  Nat.ble (a.num * b.den) (b.num * a.den)

/-- Score comparison `a < b`, by cross multiplication. -/
def Frac.lt (a b : Frac) : Bool :=
  Nat.blt (a.num * b.den) (b.num * a.den)

/-- The integer score `n` as a `Frac`. -/
def fr (n : Nat) : Frac := ⟨n, 1, Nat.one_pos⟩

/-- Python's `max(x, y)`: returns `x` when the two compare equal. -/
def pymax (x y : Frac) : Frac := if Frac.le y x then x else y

/-- Characters of a Python string. -/
abbrev Chars := List Char

/-- Longest-common-subsequence inner step: given the previous dynamic
programming row, the remaining characters of `b` and the running cell value,
produce the rest of the next row. -/
def lcsNextAux (c : Char) : Chars → List Nat → Nat → List Nat
  | [], _, _ => []
  | b :: bs, prev, cur =>
    let pj := prev.headD 0
    let pj1 := (prev.drop 1).headD 0
    let nj1 := if c = b then pj + 1 else max pj1 cur
    nj1 :: lcsNextAux c bs (prev.drop 1) nj1

/-- One row update of the LCS dynamic program. -/
def lcsRowStep (b : Chars) (prev : List Nat) (c : Char) : List Nat :=
  0 :: lcsNextAux c b prev 0

/-- Length of the longest common subsequence of two character lists.
rapidfuzz's Indel (insertion/deletion) distance of `a` and `b` is
`a.length + b.length - 2 * lcs a b`. -/
def lcs (a b : Chars) : Nat :=
  (a.foldl (lcsRowStep b) (List.replicate (b.length + 1) 0)).getLastD 0

/-- Model of rapidfuzz `fuzz.ratio`: the normalised Indel similarity on a
0-100 scale, `100 * (len1 + len2 - dist) / (len1 + len2)`, i.e.
`200 * lcs / (len1 + len2)`; two empty strings score 100. -/
def fuzz_ratio (a b : Chars) : Frac :=
  let s := a.length + b.length
  if h : s = 0 then fr 100
  else ⟨200 * lcs a b, s, Nat.pos_of_ne_zero h⟩

/-- Whitespace split of a character list (empty tokens removed), modelling
Python's `str.split()` as used by rapidfuzz tokenisation. -/
def splitWs (l : Chars) : List Chars :=
  (l.foldr
    (fun c acc =>
      if c.isWhitespace then [] :: acc
      else
        match acc with
        | [] => [[c]]
        | t :: ts => (c :: t) :: ts)
    []).filter (fun t => !t.isEmpty)

/-- Code-point lexicographic strict order on character lists (Python's
string ordering, used by `sorted`). -/
def lexLt : Chars → Chars → Bool
  | [], [] => false
  | [], _ :: _ => true
  | _ :: _, [] => false
  | a :: as, b :: bs =>
    if a.val < b.val then true
    else if b.val < a.val then false
    else lexLt as bs

/-- Lexicographic non-strict order derived from `lexLt`. -/
def lexLe (a b : Chars) : Bool := !lexLt b a

/-- The relation sorted by when modelling Python's `sorted` on tokens. -/
def tokenLeRel (a b : Chars) : Prop := lexLe a b = true

instance : DecidableRel tokenLeRel := fun a b => instDecidableEqBool (lexLe a b) true

/-- Sorted duplicate-free token list of a string: Python's
`sorted(set(s.split()))` used by rapidfuzz's token-set scorer. -/
def sortedTokens (l : Chars) : List Chars :=
  List.insertionSort tokenLeRel (splitWs l).dedup

/-- Space-join of a token list. -/
def joinSp (ts : List Chars) : Chars := List.intercalate [' '] ts

/-- Model of rapidfuzz `fuzz.token_set_ratio`: split both sides into sorted
unique token sets; if the intersection is nonempty and one side has no
extra tokens the score is 100; otherwise the maximum of the pairwise
`fuzz.ratio` values of {intersection, intersection + extras of either side}. -/
def token_set_ratio (q c : Chars) : Frac :=
  let t1 := sortedTokens q
  let t2 := sortedTokens c
  let sect := t1.filter (fun t => t2.contains t)
  let d1 := t1.filter (fun t => !t2.contains t)
  let d2 := t2.filter (fun t => !t1.contains t)
  if sect ≠ [] ∧ (d1 = [] ∨ d2 = []) then fr 100
  else
    let s := joinSp sect
    let c1 := joinSp (sect ++ d1)
    let c2 := joinSp (sect ++ d2)
    pymax (fuzz_ratio s c1) (pymax (fuzz_ratio s c2) (fuzz_ratio c1 c2))

/-- Model of rapidfuzz `fuzz.partial_ratio`: the best `fuzz.ratio` between
the shorter string and any window of the longer string of the shorter
string's length. -/
def windowed_ratio (a b : Chars) : Frac :=
  let p := if a.length ≤ b.length then (a, b) else (b, a)
  let sh := p.1
  let lo := p.2
  let windows := (List.range (lo.length - sh.length + 1)).map
    (fun i => (lo.drop i).take sh.length)
  windows.foldl (fun acc w => pymax acc (fuzz_ratio sh w)) (fr 0)

/-- The scorer installed by `fuzzy_search` (src/listings/views.py, lines
79-82): the maximum of the token-set and the partial similarity.  The
lambda's captured `score_cutoff` default (60) never takes effect, because
rapidfuzz's `process.extract` calls the scorer with its own
`score_cutoff` keyword - `None` here, since `extract` is called without a
cutoff - which overrides the lambda's default; so the raw scores are used. -/
def scoreOf (q c : Chars) : Frac :=
  pymax (token_set_ratio q c) (windowed_ratio q c)

/-- Descending-score ordering of scored indices, as produced by
`process.extract` (a stable sort on the score, highest first). -/
def scoreGe (x y : Frac × Nat) : Prop := Frac.le y.1 x.1 = true

instance : DecidableRel scoreGe := fun x y => instDecidableEqBool (Frac.le y.1 x.1) true

/-- Model of rapidfuzz `process.extract query choices scorer limit`: score
every choice (identified by its index), order by descending score (stable),
and keep the first `lim`.  With no `score_cutoff` argument, no candidate is
filtered out. -/
def extract (query : Chars) (choices : List Chars) (lim : Nat) : List (Frac × Nat) :=
  let scored := (List.range choices.length).map
    (fun i => (scoreOf query (choices.getD i []), i))
  (List.insertionSort scoreGe scored).take lim

/-- A row of the `Listing` table as seen by `fuzzy_search`: its primary key
and the text of the chosen `choice_field` (always `title` in the search
path). -/
structure LRow where
  id : Int
  title : String
deriving DecidableEq, Repr

/-- The preprocessing `fuzzy_search` applies to each candidate (line 74 of
src/listings/views.py): `name.lower().strip()`.  The query is **not**
preprocessed. -/
def pyProc (s : String) : Chars :=
  (((s.data.map Char.toLower).dropWhile Char.isWhitespace).reverse.dropWhile
    Char.isWhitespace).reverse

/-- Ascending rank relation used by the final re-sort of `fuzzy_search`
(line 88): `matched_ids.index(p.id)`. -/
def rankLeRel (matched_ids : List Int) (x y : LRow) : Prop :=
  List.indexOf x.id matched_ids ≤ List.indexOf y.id matched_ids

instance (m : List Int) : DecidableRel (rankLeRel m) :=
  fun x y => Nat.decLe (List.indexOf x.id m) (List.indexOf y.id m)

/-- The `matched_ids` list of `fuzzy_search` (line 86 of
src/listings/views.py): `[ids[match[2]] for match in matches]`, the primary
keys of the matches in descending-score order. -/
def matchedIds (qs : List LRow) (q : String) : List Int :=
  (extract q.data (qs.map (fun r => pyProc r.title)) 30).map
    (fun m => (qs.map LRow.id).getD m.2 0)

/-- Lines 86-89 of src/listings/views.py: fetch the rows whose id is among
the matched ids (`qs.filter(id__in=matched_ids)` returns them in the
database's natural order, modelled as the input order) and re-sort them by
`matched_ids.index(p.id)`, i.e. by match rank. -/
def fuzzy_rank (qs : List LRow) (q : String) : List LRow :=
  List.insertionSort (rankLeRel (matchedIds qs q))
    (qs.filter (fun r => (matchedIds qs q).contains r.id))

/-- Model of `fuzzy_search` (src/listings/views.py, lines 57-89).  An empty
queryset short-circuits to `[]`; a falsy (`None` or empty) query returns the
queryset in its natural order; otherwise the top 30 scored candidates are
fetched back from the database and re-sorted by match rank (`fuzzy_rank`).
The `score_cutoff` parameter is carried but - exactly as in the source -
never reaches the scoring (see `scoreOf`); the `ids`/`choices` projections
of lines 73-74, pure here, are inlined into `matchedIds`/`fuzzy_rank`. -/
def fuzzy_search (qs : List LRow) (query : Option String) (score_cutoff : Nat) :
    List LRow :=
  if qs = [] then []
  else
    match query with
    | none => qs
    | some q => if q = "" then qs else fuzzy_rank qs q

instance : IsTotal (Frac × Nat) scoreGe :=
  ⟨fun x y => by
    unfold scoreGe Frac.le
    rcases Nat.le_total (y.1.num * x.1.den) (x.1.num * y.1.den) with h | h
    · exact Or.inl (by simpa using h)
    · exact Or.inr (by simpa using h)⟩

instance : IsTrans (Frac × Nat) scoreGe :=
  ⟨fun x y z hxy hyz => by
    unfold scoreGe Frac.le at *
    simp only [Nat.ble_eq] at hxy hyz ⊢
    have h1 := Nat.mul_le_mul_right x.1.den hyz
    have h2 := Nat.mul_le_mul_right z.1.den hxy
    apply Nat.le_of_mul_le_mul_right _ y.1.den_pos
    calc z.1.num * x.1.den * y.1.den
        = z.1.num * y.1.den * x.1.den := by ring
      _ ≤ y.1.num * z.1.den * x.1.den := h1
      _ = y.1.num * x.1.den * z.1.den := by ring
      _ ≤ x.1.num * y.1.den * z.1.den := h2
      _ = x.1.num * z.1.den * y.1.den := by ring⟩

instance (m : List Int) : IsTotal LRow (rankLeRel m) :=
  ⟨fun x y => Nat.le_total _ _⟩

instance (m : List Int) : IsTrans LRow (rankLeRel m) :=
  ⟨fun _ _ _ => Nat.le_trans⟩

/-- Whitespace strip at both ends (Python's `str.strip()`), on character
lists. -/
def stripData (l : Chars) : Chars :=
  ((l.dropWhile Char.isWhitespace).reverse.dropWhile Char.isWhitespace).reverse

/-- Digits-and-underscores group as accepted inside Python number
literals parsed by `int()`/`float()`: nonempty, starts and ends with a
digit, and never has two consecutive underscores. -/
def noDoubleUnderscore : Chars → Bool
  | c1 :: c2 :: rest => !(c1 = '_' && c2 = '_') && noDoubleUnderscore (c2 :: rest)
  | _ => true

/-- Validity of one digit group (see `noDoubleUnderscore`). -/
def validDigitGroup (l : Chars) : Bool :=
  match l with
  | [] => false
  | c :: _ =>
    c.isDigit &&
    (match l.getLast? with
     | Option.some d => d.isDigit
     | Option.none => false) &&
    l.all (fun ch => ch.isDigit || ch = '_') &&
    noDoubleUnderscore l

/-- Numeric value of a digit group, underscores removed. -/
def digitsVal (l : Chars) : Nat :=
  (l.filter (fun c => c ≠ '_')).foldl (fun a c => a * 10 + (c.toNat - 48)) 0

/-- Count of real digits of a group (underscores removed). -/
def digitsLen (l : Chars) : Nat := (l.filter (fun c => c ≠ '_')).length

/-- Model of Python's `int(str)`: surrounding whitespace stripped, optional
sign, then one digit group; anything else raises `ValueError`, modelled as
`none`.  (The `0x`/`0b` prefixes need an explicit base argument in Python
and cannot occur here.) -/
def pyInt (s : String) : Option Int :=
  match stripData s.data with
  | [] => Option.none
  | c :: rest =>
    let body := if c = '-' ∨ c = '+' then rest else c :: rest
    if validDigitGroup body then
      Option.some ((if c = '-' then -1 else 1) * (digitsVal body : Int))
    else Option.none

/-- Split a character list at every separator character (Python
`str.split(sep)`: empty parts are kept). -/
def splitOnPred (sep : Char → Bool) (l : Chars) : List Chars :=
  l.foldr
    (fun c acc =>
      if sep c then [] :: acc
      else
        match acc with
        | [] => [[c]]
        | t :: ts => (c :: t) :: ts)
    [[]]

/-- Model of Python's `float(str)` restricted to finite decimal notation:
optional sign, digit groups around an optional point, optional exponent.
The value is kept as an exact rational `(numerator, power-of-ten
denominator)`; the binary rounding of Python floats is not modelled, and no
compared quantity in this development depends on it.  `inf`/`nan` spellings
are not modelled (never produced by the views).  Parse failure is `none`
(`ValueError` in Python). -/
def pyFloat (s : String) : Option (Int × Nat) :=
  match stripData s.data with
  | [] => Option.none
  | c :: rest =>
    let body := if c = '-' ∨ c = '+' then rest else c :: rest
    let sign : Int := if c = '-' then -1 else 1
    match splitOnPred (fun ch => ch = 'e' ∨ ch = 'E') body with
    | [mant] =>
      match splitOnPred (fun ch => ch = '.') mant with
      | [ip] =>
        if validDigitGroup ip then Option.some (sign * (digitsVal ip : Int), 1)
        else Option.none
      | [ip, fp] =>
        if (ip.isEmpty || validDigitGroup ip) && (fp.isEmpty || validDigitGroup fp)
            && !(ip.isEmpty && fp.isEmpty) then
          Option.some (sign * ((digitsVal ip * 10 ^ digitsLen fp + digitsVal fp : Nat) : Int),
            10 ^ digitsLen fp)
        else Option.none
      | _ => Option.none
    | [mant, ex] =>
      let mval : Option (Nat × Nat) :=
        match splitOnPred (fun ch => ch = '.') mant with
        | [ip] =>
          if validDigitGroup ip then Option.some (digitsVal ip, 0) else Option.none
        | [ip, fp] =>
          if (ip.isEmpty || validDigitGroup ip) && (fp.isEmpty || validDigitGroup fp)
              && !(ip.isEmpty && fp.isEmpty) then
            Option.some (digitsVal ip * 10 ^ digitsLen fp + digitsVal fp, digitsLen fp)
          else Option.none
        | _ => Option.none
      let eval : Option Int :=
        match ex with
        | [] => Option.none
        | e :: erest =>
          let ebody := if e = '-' ∨ e = '+' then erest else e :: erest
          if validDigitGroup ebody then
            Option.some ((if e = '-' then -1 else 1) * (digitsVal ebody : Int))
          else Option.none
      match mval, eval with
      | Option.some (mn, fl), Option.some ev =>
        let e2 : Int := ev - (fl : Int)
        if 0 ≤ e2 then Option.some (sign * mn * 10 ^ e2.toNat, 1)
        else Option.some (sign * mn, 10 ^ (-e2).toNat)
      | _, _ => Option.none
    | _ => Option.none

/-- A Django `QueryDict` of GET parameters: each key holds the list of all
values supplied for it.  `get` returns the last value of the key (Django's
`QueryDict.__getitem__` semantics); `getlist` returns them all. -/
structure Request where
  params : List (String × List String)

/-- Django `request.GET.get(key)`. -/
def Request.get (r : Request) (k : String) : Option String :=
  (r.params.lookup k).bind List.getLast?

/-- Django `request.GET.getlist(key)`. -/
def Request.getlist (r : Request) (k : String) : List String :=
  (r.params.lookup k).getD []

/-- One entry of `model._meta.get_fields()` as consumed by
`gather_filters`/`build_filter_fields`: its name, verbose name,
`get_internal_type()` string, and the `concrete`/`is_relation` flags. -/
structure Field where
  name : String
  verbose_name : String
  internal_type : String
  concrete : Bool
  is_relation : Bool
deriving DecidableEq, Repr

/-- The four filter groups returned by `gather_filters` (line 242):
string set-membership, integer bounds, float bounds (exact rationals), and
boolean equality, each keyed by the Django lookup string. -/
structure Filters where
  str : List (String × List String)
  int : List (String × Int)
  float : List (String × (Int × Nat))
  bool : List (String × Bool)
deriving DecidableEq, Repr

/-- Lines 190-206 of src/listings/views.py: the `<field>_min`/`<field>_max`
bounds of a `PositiveIntegerField`, each kept only when present, non-empty
and parsed by `int()`; a failure is silently dropped (`except ValueError:
pass`). -/
def int_bounds (req : Request) (pre fname : String) : List (String × Int) :=
  (match req.get (fname ++ "_min") with
   | Option.some s =>
     if s = "" then []
     else
       match pyInt s with
       | Option.some v => [(pre ++ fname ++ "__gte", v)]
       | Option.none => []
   | Option.none => []) ++
  (match req.get (fname ++ "_max") with
   | Option.some s =>
     if s = "" then []
     else
       match pyInt s with
       | Option.some v => [(pre ++ fname ++ "__lte", v)]
       | Option.none => []
   | Option.none => [])

/-- Lines 208-225: the same for a `FloatField`, parsed by `float()`. -/
def float_bounds (req : Request) (pre fname : String) : List (String × (Int × Nat)) :=
  (match req.get (fname ++ "_min") with
   | Option.some s =>
     if s = "" then []
     else
       match pyFloat s with
       | Option.some v => [(pre ++ fname ++ "__gte", v)]
       | Option.none => []
   | Option.none => []) ++
  (match req.get (fname ++ "_max") with
   | Option.some s =>
     if s = "" then []
     else
       match pyFloat s with
       | Option.some v => [(pre ++ fname ++ "__lte", v)]
       | Option.none => []
   | Option.none => [])

/-- Lines 227-233: a `BooleanField` is constrained only by the literal
strings "True"/"False"; anything else (including absence) is no
constraint. -/
def bool_value (req : Request) (pre fname : String) : List (String × Bool) :=
  match req.get fname with
  | Option.some s =>
    if s = "True" then [(pre ++ fname, true)]
    else if s = "False" then [(pre ++ fname, false)]
    else []
  | Option.none => []

/-- Lines 235-239: every other field is a string field; a nonempty
multi-value parameter becomes a set-membership constraint. -/
def str_values (req : Request) (pre fname : String) : List (String × List String) :=
  let values := req.getlist fname
  if values.isEmpty then [] else [(pre ++ fname ++ "__in", values)]

/-- The loop body of `gather_filters` (lines 187-240) for one field:
non-concrete or relational fields are skipped, then the internal type
chooses the branch, the final `else` catching everything else as a string
field. -/
def field_filters (req : Request) (pre : String) (f : Field) : Filters :=
  if !f.concrete || f.is_relation then ⟨[], [], [], []⟩
  else if f.internal_type = "PositiveIntegerField" then
    ⟨[], int_bounds req pre f.name, [], []⟩
  else if f.internal_type = "FloatField" then
    ⟨[], [], float_bounds req pre f.name, []⟩
  else if f.internal_type = "BooleanField" then
    ⟨[], [], [], bool_value req pre f.name⟩
  else
    ⟨str_values req pre f.name, [], [], []⟩

/-- Model of `gather_filters` (src/listings/views.py, lines 167-242): fold
the per-field contributions over the model's field list in order. -/
def gather_filters (req : Request) : List Field → String → Filters
  | [], _ => ⟨[], [], [], []⟩
  | f :: fs, pre =>
    let cur := field_filters req pre f
    let rest := gather_filters req fs pre
    ⟨cur.str ++ rest.str, cur.int ++ rest.int, cur.float ++ rest.float,
      cur.bool ++ rest.bool⟩

/-- Lowercasing of a whole string (Python `str.lower()` on ASCII). -/
def lowerStr (s : String) : String := ⟨s.data.map Char.toLower⟩

/-- The concrete field table of the `Listing` model
(src/listings/models.py, lines 8-77), in `_meta.get_fields()` order:
the reverse accessor first (non-concrete, skipped by both consumers), then
the auto primary key and the declared fields.  `price` and `shipping_cost`
are `DecimalField`s, whose `get_internal_type()` is "DecimalField". -/
def listingFields : List Field :=
  [⟨"images", "images", "ForeignKey", false, true⟩,
   ⟨"id", "ID", "BigAutoField", true, false⟩,
   ⟨"owner", "Owner", "ForeignKey", true, true⟩,
   ⟨"product", "product", "ForeignKey", true, true⟩,
   ⟨"title", "Title", "CharField", true, false⟩,
   ⟨"listing_text", "Listing Text", "TextField", true, false⟩,
   ⟨"condition", "Condition", "CharField", true, false⟩,
   ⟨"price", "Price", "DecimalField", true, false⟩,
   ⟨"stock", "Stock", "PositiveIntegerField", true, false⟩,
   ⟨"status", "status", "CharField", true, false⟩,
   ⟨"location_city", "location city", "CharField", true, false⟩,
   ⟨"location_state", "location state", "CharField", true, false⟩,
   ⟨"zip_code", "zip code", "CharField", true, false⟩,
   ⟨"shipping_available", "shipping available", "BooleanField", true, false⟩,
   ⟨"local_pickup_only", "local pickup only", "BooleanField", true, false⟩,
   ⟨"shipping_cost", "shipping cost", "DecimalField", true, false⟩,
   ⟨"upload_time", "Upload Time", "DateTimeField", true, false⟩]

/-- `Listing.FILTER_FIELDS` (src/listings/models.py, line 71). -/
def listingFilterAllow : List String := ["condition", "price"]

/-- The concrete field table of the `CPU` model
(src/products/models.py): the `Product` base fields (multi-table
inheritance exposes them on the child) followed by the CPU-specific
fields.  `Optional*Field` subclasses inherit `get_internal_type()` from
their Django base class.  The `polymorphic_ctype` and `product_ptr`
entries are relations and are skipped by both consumers. -/
def cpuFields : List Field :=
  [⟨"id", "ID", "BigAutoField", true, false⟩,
   ⟨"polymorphic_ctype", "polymorphic ctype", "ForeignKey", true, true⟩,
   ⟨"product_name", "Product Name", "CharField", true, false⟩,
   ⟨"manufacturer", "Manufacturer", "CharField", true, false⟩,
   ⟨"part_numbers", "Part Numbers", "JSONField", true, false⟩,
   ⟨"series", "Series", "CharField", true, false⟩,
   ⟨"variant", "Variant", "CharField", true, false⟩,
   ⟨"release_year", "Release Year", "PositiveIntegerField", true, false⟩,
   ⟨"amazon_sku", "amazon sku", "CharField", true, false⟩,
   ⟨"newegg_sku", "newegg sku", "CharField", true, false⟩,
   ⟨"bestbuy_sku", "bestbuy sku", "CharField", true, false⟩,
   ⟨"walmart_sku", "walmart sku", "CharField", true, false⟩,
   ⟨"adorama_sku", "adorama sku", "CharField", true, false⟩,
   ⟨"manufacturer_url", "manufacturer url", "CharField", true, false⟩,
   ⟨"opendb_id", "opendb id", "UUIDField", true, false⟩,
   ⟨"last_synced", "last synced", "DateTimeField", true, false⟩,
   ⟨"product_ptr", "product ptr", "OneToOneField", true, true⟩,
   ⟨"microarchitecture", "Microarchitecture", "CharField", true, false⟩,
   ⟨"core_family", "Core Family", "CharField", true, false⟩,
   ⟨"socket", "Socket", "CharField", true, false⟩,
   ⟨"cores_tot", "Total Core Count", "PositiveIntegerField", true, false⟩,
   ⟨"cores_perf", "Performance Core Count", "PositiveIntegerField", true, false⟩,
   ⟨"cores_eff", "Efficiency Core Count", "PositiveIntegerField", true, false⟩,
   ⟨"threads", "Thread Count", "PositiveIntegerField", true, false⟩,
   ⟨"clocks_perf_base", "Performance Core Clock", "FloatField", true, false⟩,
   ⟨"clocks_perf_boost", "Performance Core Boost Clock", "FloatField", true, false⟩,
   ⟨"clocks_eff_base", "clocks eff base", "FloatField", true, false⟩,
   ⟨"clocks_eff_boost", "clocks eff boost", "FloatField", true, false⟩,
   ⟨"cache_l1", "L1 Cache", "CharField", true, false⟩,
   ⟨"cache_l2", "L2 Cache", "FloatField", true, false⟩,
   ⟨"cache_l3", "L3 Cache", "FloatField", true, false⟩,
   ⟨"tdp", "TDP", "PositiveIntegerField", true, false⟩,
   ⟨"intgraph_model", "Integrated Graphics", "CharField", true, false⟩,
   ⟨"intgraph_base_clock", "intgraph base clock", "FloatField", true, false⟩,
   ⟨"intgraph_boost_clock", "intgraph boost clock", "FloatField", true, false⟩,
   ⟨"intgraph_shader_count", "intgraph shader count", "FloatField", true, false⟩,
   ⟨"ecc_support", "ECC Support", "BooleanField", true, false⟩,
   ⟨"includes_cooler", "Includes Cooler", "BooleanField", true, false⟩,
   ⟨"packaging", "Packaging", "CharField", true, false⟩,
   ⟨"lithography", "Lithography", "CharField", true, false⟩,
   ⟨"simul_multithread", "Simultaneous Multithreading", "BooleanField", true, false⟩,
   ⟨"mem_max_support", "mem max support", "FloatField", true, false⟩,
   ⟨"mem_types", "mem types", "JSONField", true, false⟩,
   ⟨"mem_channels", "mem channels", "PositiveIntegerField", true, false⟩]

/-- `CPU.FILTER_FIELDS` (src/products/models.py, lines 266-270:
`Product.FILTER_FIELDS` plus the CPU additions). -/
def cpuFilterAllow : List String :=
  ["manufacturer", "series", "release_year",
   "microarchitecture", "core_family", "socket", "cores_tot",
   "threads", "clocks_perf_base", "clocks_perf_boost", "tdp",
   "intgraph_model", "ecc_support", "includes_cooler", "simul_multithread"]

/-- A database column value: NULL, integer, exact decimal
`(numerator, positive power-of-ten denominator)`, string, or boolean. -/
inductive PyVal where
  | null
  | int (i : Int)
  | dec (num : Int) (den : Nat)
  | str (s : String)
  | bool (b : Bool)
deriving DecidableEq, Repr

/-- The value of a named column in a row, a missing column reading as
NULL. -/
def fieldVal (fs : List (String × PyVal)) (n : String) : PyVal :=
  (fs.lookup n).getD PyVal.null

/-- A `Listing` row as seen by the `search_listings` filter step: its own
column values, the concrete variant of its catalog entry, and the catalog
entry's column values reached through the `product` relation. -/
structure StoredListing where
  lvals : List (String × PyVal)
  productType : String
  pvals : List (String × PyVal)
deriving DecidableEq, Repr

/-- Django's comparison of a stored value against one string of an `__in`
list: the string is coerced to the column type before comparing; an
uncoercible string or a NULL never matches. -/
def valMatchesStr (v : PyVal) (s : String) : Bool :=
  match v with
  | PyVal.str t => t = s
  | PyVal.int i => pyInt s = Option.some i
  | PyVal.dec n d =>
    match pyFloat s with
    | Option.some p => n * p.2 = p.1 * d
    | Option.none => false
  | PyVal.bool b => (s = "True" && b) || (s = "False" && !b)
  | PyVal.null => false

/-- SQL `value >= bound` for an integer bound (NULL compares false). -/
def valGeInt (v : PyVal) (b : Int) : Bool :=
  match v with
  | PyVal.int i => b ≤ i
  | PyVal.dec n d => b * d ≤ n
  | _ => false

/-- SQL `value <= bound` for an integer bound. -/
def valLeInt (v : PyVal) (b : Int) : Bool :=
  match v with
  | PyVal.int i => i ≤ b
  | PyVal.dec n d => n ≤ b * d
  | _ => false

/-- SQL `value >= bound` for a decimal bound. -/
def valGeDec (v : PyVal) (b : Int × Nat) : Bool :=
  match v with
  | PyVal.int i => b.1 ≤ i * b.2
  | PyVal.dec n d => b.1 * d ≤ n * b.2
  | _ => false

/-- SQL `value <= bound` for a decimal bound. -/
def valLeDec (v : PyVal) (b : Int × Nat) : Bool :=
  match v with
  | PyVal.int i => i * b.2 ≤ b.1
  | PyVal.dec n d => n * b.2 ≤ b.1 * d
  | _ => false

/-- Resolve a Django lookup key against a listing: a `product__` prefix
addresses the catalog entry's columns, anything else the listing's own. -/
def resolveKey (l : StoredListing) (key : String) : List (String × PyVal) × String :=
  let pre := "product__".data
  if key.data.take pre.length = pre then (l.pvals, ⟨key.data.drop pre.length⟩)
  else (l.lvals, key)

/-- Strip a known lookup operator from the end of a key, returning the bare
field name. -/
def stripOp (op key : String) : String :=
  ⟨key.data.take (key.data.length - op.data.length)⟩

/-- Satisfaction of one string-group constraint `name__in=[values]`. -/
def applyStrFilter (l : StoredListing) (kv : String × List String) : Bool :=
  let rk := resolveKey l kv.1
  let v := fieldVal rk.1 (stripOp "__in" rk.2)
  kv.2.any (valMatchesStr v)

/-- Satisfaction of one integer-group constraint (`__gte` or `__lte`). -/
def applyIntFilter (l : StoredListing) (kv : String × Int) : Bool :=
  let rk := resolveKey l kv.1
  if rk.2.data.drop (rk.2.data.length - 5) = "__gte".data then
    valGeInt (fieldVal rk.1 (stripOp "__gte" rk.2)) kv.2
  else
    valLeInt (fieldVal rk.1 (stripOp "__lte" rk.2)) kv.2

/-- Satisfaction of one float-group constraint (`__gte` or `__lte`). -/
def applyDecFilter (l : StoredListing) (kv : String × (Int × Nat)) : Bool :=
  let rk := resolveKey l kv.1
  if rk.2.data.drop (rk.2.data.length - 5) = "__gte".data then
    valGeDec (fieldVal rk.1 (stripOp "__gte" rk.2)) kv.2
  else
    valLeDec (fieldVal rk.1 (stripOp "__lte" rk.2)) kv.2

/-- Satisfaction of one boolean-group constraint (a bare field name). -/
def applyBoolFilter (l : StoredListing) (kv : String × Bool) : Bool :=
  let rk := resolveKey l kv.1
  fieldVal rk.1 rk.2 = PyVal.bool kv.2

/-- The variant restriction
`product__<model name lowercased>__isnull: False` (line 123): under
multi-table polymorphic inheritance the child-table row exists exactly when
the catalog entry is of that concrete variant. -/
def variantMatches (l : StoredListing) (modelNameLower : String) : Bool :=
  lowerStr l.productType = modelNameLower

/-- The filtering step of `search_listings` (src/listings/views.py, lines
122-126): `Listing.objects.filter(**{variant isnull check}, **l["str"],
**l["int"], **l["bool"], **p["str"], **p["int"], **p["bool"])` - note that
only the `str`, `int` and `bool` groups of the gathered filters are
unpacked; the `float` group of neither dict appears. -/
def search_listings_filter (store : List StoredListing) (pmodelName : String)
    (pmodelFields : List Field) (req : Request) : List StoredListing :=
  let l_filter_vals := gather_filters req listingFields ""
  let p_filter_vals := gather_filters req pmodelFields "product__"
  store.filter (fun l =>
    variantMatches l (lowerStr pmodelName) &&
    l_filter_vals.str.all (applyStrFilter l) &&
    l_filter_vals.int.all (applyIntFilter l) &&
    l_filter_vals.bool.all (applyBoolFilter l) &&
    p_filter_vals.str.all (applyStrFilter l) &&
    p_filter_vals.int.all (applyIntFilter l) &&
    p_filter_vals.bool.all (applyBoolFilter l))

/-- UI option entry for an integer-typed filter field (lines 269-286):
global min/max over all rows plus the user's bounds, each bound key added
only when its gathered value is truthy (so a bound of 0 is dropped). -/
structure NumOptionI where
  label : String
  min_val : Option Int
  max_val : Option Int
  user_min : Option Int
  user_max : Option Int
deriving DecidableEq, Repr

/-- UI option entry for a float-typed filter field (lines 288-304). -/
structure NumOptionF where
  label : String
  min_val : Option (Int × Nat)
  max_val : Option (Int × Nat)
  user_min : Option (Int × Nat)
  user_max : Option (Int × Nat)
deriving DecidableEq, Repr

/-- UI option entry for a boolean filter field (lines 306-311). -/
structure BoolOption where
  label : String
  user_input : Option Bool
deriving DecidableEq, Repr

/-- UI option entry for a string filter field (lines 313-320): the distinct
sorted existing values plus the user's current selection. -/
structure StrOption where
  label : String
  options : List PyVal
  user_inputs : Option (List String)
deriving DecidableEq, Repr

/-- The four option groups returned by `build_filter_fields`
(lines 321-324). -/
structure FilterFieldsOut where
  str : List (String × StrOption)
  int : List (String × NumOptionI)
  float : List (String × NumOptionF)
  bool : List (String × BoolOption)
deriving DecidableEq, Repr

/-- A table of rows for aggregate scans. -/
abbrev Row := List (String × PyVal)

/-- The integer values of a column across a table (NULLs ignored, as by SQL
`MIN`/`MAX`). -/
def intVals (rows : List Row) (n : String) : List Int :=
  rows.filterMap (fun r =>
    match fieldVal r n with
    | PyVal.int i => Option.some i
    | _ => Option.none)

/-- The decimal values of a column across a table. -/
def decVals (rows : List Row) (n : String) : List (Int × Nat) :=
  rows.filterMap (fun r =>
    match fieldVal r n with
    | PyVal.dec num den => Option.some (num, den)
    | _ => Option.none)

/-- SQL `MIN` over integers: `None` on an empty table. -/
def aggMinI (l : List Int) : Option Int :=
  l.foldl (fun acc i =>
    match acc with
    | Option.some m => Option.some (min m i)
    | Option.none => Option.some i) Option.none

/-- SQL `MAX` over integers. -/
def aggMaxI (l : List Int) : Option Int :=
  l.foldl (fun acc i =>
    match acc with
    | Option.some m => Option.some (max m i)
    | Option.none => Option.some i) Option.none

/-- Cross-multiplied comparison of decimal values. -/
def decLe (a b : Int × Nat) : Bool := a.1 * b.2 ≤ b.1 * a.2

/-- SQL `MIN` over decimals. -/
def aggMinD (l : List (Int × Nat)) : Option (Int × Nat) :=
  l.foldl (fun acc i =>
    match acc with
    | Option.some m => Option.some (if decLe m i then m else i)
    | Option.none => Option.some i) Option.none

/-- SQL `MAX` over decimals. -/
def aggMaxD (l : List (Int × Nat)) : Option (Int × Nat) :=
  l.foldl (fun acc i =>
    match acc with
    | Option.some m => Option.some (if decLe m i then i else m)
    | Option.none => Option.some i) Option.none

/-- An arbitrary total order on column values, standing in for the database
collation used by `order_by`: NULLs first, then booleans, integers,
decimals and strings, each by value. -/
def pyValLe (a b : PyVal) : Bool :=
  let rank : PyVal → Nat := fun v =>
    match v with
    | PyVal.null => 0
    | PyVal.bool _ => 1
    | PyVal.int _ => 2
    | PyVal.dec _ _ => 3
    | PyVal.str _ => 4
  if rank a ≠ rank b then rank a ≤ rank b
  else
    match a, b with
    | PyVal.bool x, PyVal.bool y => !x || y
    | PyVal.int x, PyVal.int y => x ≤ y
    | PyVal.dec n1 d1, PyVal.dec n2 d2 => n1 * d2 ≤ n2 * d1
    | PyVal.str x, PyVal.str y => lexLe x.data y.data
    | _, _ => true

/-- The relation of `pyValLe`, for sorting. -/
def pyValLeRel (a b : PyVal) : Prop := pyValLe a b = true

instance : DecidableRel pyValLeRel := fun a b => instDecidableEqBool (pyValLe a b) true

/-- Line 315: `values_list(field.name, flat=True).distinct().order_by(...)`. -/
def distinctSorted (rows : List Row) (n : String) : List PyVal :=
  List.insertionSort pyValLeRel ((rows.map (fun r => fieldVal r n)).dedup)

/-- Python truthiness of a gathered integer bound (`if
filter_vals["int"].get(key):` - an integer 0 is falsy and gets dropped). -/
def truthyBoundI (v : Option Int) : Option Int :=
  match v with
  | Option.some i => if i = 0 then Option.none else Option.some i
  | Option.none => Option.none

/-- Python truthiness of a gathered float bound (0.0 is falsy). -/
def truthyBoundF (v : Option (Int × Nat)) : Option (Int × Nat) :=
  match v with
  | Option.some p => if p.1 = 0 then Option.none else Option.some p
  | Option.none => Option.none

/-- The loop body of `build_filter_fields` (lines 263-320) for one field:
non-concrete/relational fields and fields outside the `FILTER_FIELDS`
allowlist are skipped; the internal type then chooses the option shape,
the final `else` treating the field as a string field. -/
def field_options (rows : List Row) (allow : List String) (filter_vals : Filters)
    (pre : String) (f : Field) : FilterFieldsOut :=
  if !f.concrete || f.is_relation then ⟨[], [], [], []⟩
  else if !(allow.contains f.name) then ⟨[], [], [], []⟩
  else if f.internal_type = "PositiveIntegerField" then
    ⟨[], [(f.name,
      ⟨f.verbose_name, aggMinI (intVals rows f.name), aggMaxI (intVals rows f.name),
        truthyBoundI (filter_vals.int.lookup (pre ++ f.name ++ "__gte")),
        truthyBoundI (filter_vals.int.lookup (pre ++ f.name ++ "__lte"))⟩)], [], []⟩
  else if f.internal_type = "FloatField" then
    ⟨[], [], [(f.name,
      ⟨f.verbose_name, aggMinD (decVals rows f.name), aggMaxD (decVals rows f.name),
        truthyBoundF (filter_vals.float.lookup (pre ++ f.name ++ "__gte")),
        truthyBoundF (filter_vals.float.lookup (pre ++ f.name ++ "__lte"))⟩)], []⟩
  else if f.internal_type = "BooleanField" then
    ⟨[], [], [], [(f.name,
      ⟨f.verbose_name, filter_vals.bool.lookup (pre ++ f.name)⟩)]⟩
  else
    ⟨[(f.name,
      ⟨f.verbose_name, distinctSorted rows f.name,
        filter_vals.str.lookup (pre ++ f.name ++ "__in")⟩)], [], [], []⟩

/-- Model of `build_filter_fields` (src/listings/views.py, lines 244-324):
fold the per-field option entries over the model's field list in order. -/
def build_filter_fields (rows : List Row) (allow : List String)
    (filter_vals : Filters) (pre : String) : List Field → FilterFieldsOut
  | [] => ⟨[], [], [], []⟩
  | f :: fs =>
    let cur := field_options rows allow filter_vals pre f
    let rest := build_filter_fields rows allow filter_vals pre fs
    ⟨cur.str ++ rest.str, cur.int ++ rest.int, cur.float ++ rest.float,
      cur.bool ++ rest.bool⟩

/-- The models registered in the "products" app (src/products/models.py):
the `Product` base - concrete under django-polymorphic, it has its own
table - and its seven subclasses.  No other model lives in the app. -/
inductive PModel where
  | Product
  | CPU
  | GPU
  | Motherboard
  | PCCase
  | PSU
  | RAM
  | Storage
deriving DecidableEq, Repr

/-- The app registry consulted by `apps.get_model("products", name)`,
keyed by lowercased model name (Django's lookup is case-insensitive). -/
def productsRegistry : List (String × PModel) :=
  [("product", PModel.Product), ("cpu", PModel.CPU), ("gpu", PModel.GPU),
   ("motherboard", PModel.Motherboard), ("pccase", PModel.PCCase),
   ("psu", PModel.PSU), ("ram", PModel.RAM), ("storage", PModel.Storage)]

/-- `issubclass(model, Product)`: true for every model of the app - the
base itself included, since `issubclass(Product, Product)` holds. -/
def is_product_subclass (m : PModel) : Bool :=
  match m with
  | _ => true

/-- The two failures `load_product_model` can raise: `LookupError` from
`apps.get_model` for an unknown name, `ValueError` from the explicit
subclass check. -/
inductive LoadError where
  | lookupError
  | valueError
deriving DecidableEq, Repr

/-- Model of `apps.get_model("products", product_type_str)`. -/
def apps_get_model (s : String) : Option PModel :=
  productsRegistry.lookup (lowerStr s)

/-- Model of `load_product_model` (src/listings/views.py, lines 146-165,
identical in src/products/views.py, lines 11-16). -/
def load_product_model (s : String) : Except LoadError PModel :=
  match apps_get_model s with
  | Option.none => Except.error LoadError.lookupError
  | Option.some m =>
    if is_product_subclass m then Except.ok m
    else Except.error LoadError.valueError

/-- The seven concrete product variants (the base is not one). -/
def concreteVariants : List PModel :=
  [PModel.CPU, PModel.GPU, PModel.Motherboard, PModel.PCCase,
   PModel.PSU, PModel.RAM, PModel.Storage]

/-- A `ListingImage` row as far as the primary-flag logic is concerned. -/
structure ImgRow where
  id : Nat
  listing : Nat
  is_primary : Bool
deriving DecidableEq, Repr

/-- Line 99 of src/listings/models.py:
`ListingImage.objects.filter(listing=self.listing,
is_primary=True).update(is_primary=False)`. -/
def clear_primary (db : List ImgRow) (lst : Nat) : List ImgRow :=
  db.map (fun r =>
    if r.listing == lst && r.is_primary then ⟨r.id, r.listing, false⟩ else r)

/-- `super().save(...)`: update the row in place if the primary key exists,
else insert at the end. -/
def upsert (db : List ImgRow) (img : ImgRow) : List ImgRow :=
  if db.any (fun r => r.id == img.id) then
    db.map (fun r => if r.id == img.id then img else r)
  else db ++ [img]

/-- Model of `ListingImage.save` (src/listings/models.py, lines 96-100):
when the saved image is primary, first clear the primary flag of every
image of the same listing, then write the row. -/
def ListingImage_save (db : List ImgRow) (img : ImgRow) : List ImgRow :=
  upsert (if img.is_primary then clear_primary db img.listing else db) img

/-- The invariant: no listing has two primary images.  (Quantified over the
listings present in the table; for any other listing the filtered list is
empty anyway.) -/
def atMostOnePrimary (db : List ImgRow) : Prop :=
  ∀ lst ∈ db.map ImgRow.listing,
    (db.filter (fun r => r.listing == lst && r.is_primary)).length ≤ 1

instance (db : List ImgRow) : Decidable (atMostOnePrimary db) :=
  List.decidableBAll _ _

/-- The request of the C1 failing input: a single CPU float bound. -/
def c1_req : Request := ⟨[("clocks_perf_base_min", ["3.0"])]⟩

/-- The store of the C1 failing input: one listing of a CPU whose
performance base clock, 2.0, is below the requested minimum of 3.0. -/
def c1_listing : StoredListing :=
  ⟨[("id", PyVal.int 1), ("title", PyVal.str "Ryzen 5"), ("stock", PyVal.int 4)],
   "CPU",
   [("product_name", PyVal.str "Ryzen 5 3600"), ("clocks_perf_base", PyVal.dec 2 1)]⟩

/-- The empty request (no GET parameters). -/
def emptyReq : Request := ⟨[]⟩

instance : DecidableEq (Except LoadError PModel) := fun a b =>
  match a, b with
  | Except.ok x, Except.ok y =>
    if h : x = y then Decidable.isTrue (by rw [h])
    else Decidable.isFalse (by intro he; cases he; exact h rfl)
  | Except.error x, Except.error y =>
    if h : x = y then Decidable.isTrue (by rw [h])
    else Decidable.isFalse (by intro he; cases he; exact h rfl)
  | Except.ok _, Except.error _ => Decidable.isFalse (by intro he; cases he)
  | Except.error _, Except.ok _ => Decidable.isFalse (by intro he; cases he)

-- ### Theorems ###

/-- Reflexivity of the score order. -/
theorem frac_le_refl (a : Frac) : Frac.le a a = true := by
  simp [Frac.le]

/-- Every element of `extract` output is an in-range choice index paired
with its real score. -/
theorem extract_mem_spec (query : Chars) (choices : List Chars) (lim : Nat) :
    ∀ m ∈ extract query choices lim,
      m.2 < choices.length ∧ m.1 = scoreOf query (choices.getD m.2 []) := by
  intro m hm
  unfold extract at hm
  have h1 : m ∈ List.insertionSort scoreGe ((List.range choices.length).map
      (fun i => (scoreOf query (choices.getD i []), i))) :=
    (List.take_sublist _ _).subset hm
  have h2 := (List.perm_insertionSort scoreGe _).subset h1
  rcases List.mem_map.mp h2 with ⟨i, hi, hmi⟩
  subst hmi
  exact ⟨List.mem_range.mp hi, rfl⟩

/-- The extract output is ordered by non-increasing score. -/
theorem extract_pairwise (query : Chars) (choices : List Chars) (lim : Nat) :
    (extract query choices lim).Pairwise scoreGe := by
  unfold extract
  exact List.Pairwise.sublist (List.take_sublist _ _)
    (List.sorted_insertionSort scoreGe _)


/-- Value of `getD` through a `map`, at a valid index. -/
theorem getD_map_of_lt {α β : Type} (f : α → β) (l : List α) (i : Nat)
    (h : i < l.length) (d : α) (e : β) : (l.map f).getD i e = f (l.getD i d) := by
  rw [List.getD_eq_getElem _ _ (by simpa using h), List.getD_eq_getElem _ _ h]
  exact List.getElem_map _

/-- Score recovery, abstract form: if `mids` is the id projection of a
scored list `ms` whose entries carry in-range `qs` indices and the real
scores of the indexed rows, then the entry of `ms` at the position where
row `a`'s id first occurs in `mids` carries row `a`'s score. -/
theorem rank_get_score (qs : List LRow) (q : String)
    (hnd : (qs.map LRow.id).Nodup)
    (ms : List (Frac × Nat)) (mids : List Int)
    (hmids : mids = ms.map (fun m => (qs.map LRow.id).getD m.2 0))
    (hspec : ∀ m ∈ ms, m.2 < qs.length ∧
      m.1 = scoreOf q.data (pyProc (qs.getD m.2 ⟨0, ""⟩).title))
    (a : LRow) (ha : a ∈ qs) (hma : a.id ∈ mids) :
    ∃ hk : List.indexOf a.id mids < ms.length,
      (ms.getD (List.indexOf a.id mids) (fr 0, 0)).1
        = scoreOf q.data (pyProc a.title) := by
  subst hmids
  have hia : List.indexOf a.id (ms.map (fun m => (qs.map LRow.id).getD m.2 0))
      < (ms.map (fun m => (qs.map LRow.id).getD m.2 0)).length :=
    List.indexOf_lt_length.mpr hma
  have hk : List.indexOf a.id (ms.map (fun m => (qs.map LRow.id).getD m.2 0))
      < ms.length := by
    rw [List.length_map] at hia
    exact hia
  refine ⟨hk, ?_⟩
  have hgeta := List.indexOf_get hia
  have hmapget : (ms.map (fun m => (qs.map LRow.id).getD m.2 0)).get
      ⟨List.indexOf a.id (ms.map (fun m => (qs.map LRow.id).getD m.2 0)), hia⟩
      = (qs.map LRow.id).getD
        (ms.get ⟨List.indexOf a.id
          (ms.map (fun m => (qs.map LRow.id).getD m.2 0)), hk⟩).2 0 := by
    simp only [List.get_eq_getElem, List.getElem_map]
  have hgeta2 : (qs.map LRow.id).getD
      (ms.get ⟨List.indexOf a.id
        (ms.map (fun m => (qs.map LRow.id).getD m.2 0)), hk⟩).2 0 = a.id := by
    rw [← hmapget]
    exact hgeta
  obtain ⟨hlt, hsc⟩ := hspec _ (List.get_mem ms _ hk)
  have hidv := getD_map_of_lt LRow.id qs
    (ms.get ⟨List.indexOf a.id
      (ms.map (fun m => (qs.map LRow.id).getD m.2 0)), hk⟩).2 hlt ⟨0, ""⟩ 0
  have hmem : qs.getD (ms.get ⟨List.indexOf a.id
      (ms.map (fun m => (qs.map LRow.id).getD m.2 0)), hk⟩).2 ⟨0, ""⟩ ∈ qs := by
    rw [List.getD_eq_getElem _ _ hlt]
    exact List.getElem_mem hlt
  have hrow : qs.getD (ms.get ⟨List.indexOf a.id
      (ms.map (fun m => (qs.map LRow.id).getD m.2 0)), hk⟩).2 ⟨0, ""⟩ = a := by
    apply List.inj_on_of_nodup_map hnd hmem ha
    rw [← hidv]
    exact hgeta2
  have hgd : ms.getD (List.indexOf a.id
        (ms.map (fun m => (qs.map LRow.id).getD m.2 0))) (fr 0, 0)
      = ms.get ⟨List.indexOf a.id
        (ms.map (fun m => (qs.map LRow.id).getD m.2 0)), hk⟩ := by
    rw [List.getD_eq_getElem _ _ hk]
    simp [List.get_eq_getElem]
  rw [hgd, hsc, hrow]

/-- Bridge from rank order to score order, abstract form: among rows of
`qs` whose ids occur in `mids`, an earlier (or equal) first position in
`mids` means a score at least as large, provided `ms` is sorted by
non-increasing score. -/
theorem rank_to_score (qs : List LRow) (q : String)
    (hnd : (qs.map LRow.id).Nodup)
    (ms : List (Frac × Nat)) (mids : List Int)
    (hmids : mids = ms.map (fun m => (qs.map LRow.id).getD m.2 0))
    (hp : ms.Pairwise scoreGe)
    (hspec : ∀ m ∈ ms, m.2 < qs.length ∧
      m.1 = scoreOf q.data (pyProc (qs.getD m.2 ⟨0, ""⟩).title))
    (a b : LRow) (ha : a ∈ qs) (hb : b ∈ qs)
    (hma : a.id ∈ mids) (hmb : b.id ∈ mids)
    (hr : List.indexOf a.id mids ≤ List.indexOf b.id mids) :
    Frac.le (scoreOf q.data (pyProc b.title)) (scoreOf q.data (pyProc a.title)) = true := by
  obtain ⟨hka, hsa⟩ := rank_get_score qs q hnd ms mids hmids hspec a ha hma
  obtain ⟨hkb, hsb⟩ := rank_get_score qs q hnd ms mids hmids hspec b hb hmb
  rcases eq_or_lt_of_le hr with he | hl
  · rw [← hsa, ← hsb, he]
    exact frac_le_refl _
  · rw [List.pairwise_iff_get] at hp
    have hge := hp ⟨_, hka⟩ ⟨_, hkb⟩ hl
    unfold scoreGe at hge
    rw [List.get_eq_getElem, List.get_eq_getElem] at hge
    rw [← hsa, ← hsb, List.getD_eq_getElem _ _ hka, List.getD_eq_getElem _ _ hkb]
    exact hge

/-- The matched-id list never exceeds the extract limit of 30. -/
theorem matchedIds_length_le (qs : List LRow) (q : String) :
    (matchedIds qs q).length ≤ 30 := by
  unfold matchedIds extract
  simp only [List.length_map, List.length_take]
  exact min_le_left _ _

/-- The extract output over the processed titles of `qs` carries in-range
indices and the real scores of the indexed rows. -/
theorem extract_spec_for (qs : List LRow) (q : String) :
    ∀ m ∈ extract q.data (qs.map (fun r => pyProc r.title)) 30,
      m.2 < qs.length ∧ m.1 = scoreOf q.data (pyProc (qs.getD m.2 ⟨0, ""⟩).title) := by
  intro m hm
  have hspec := extract_mem_spec q.data (qs.map (fun r => pyProc r.title)) 30
  obtain ⟨h1, h2⟩ := hspec m hm
  rw [List.length_map] at h1
  refine ⟨h1, ?_⟩
  rw [h2, getD_map_of_lt (fun r => pyProc r.title) qs m.2 h1 ⟨0, ""⟩ []]

/-- C4: for every candidate collection and every non-empty query,
`fuzzy_search` returns at most 30 results, each of which is a member of the
input collection, ordered by non-increasing similarity score (the score
being the maximum of token-set similarity and partial similarity) - the
output order being the match rank obtained by re-sorting the fetched rows
by their position in the match list, not the natural database order. -/
theorem fuzzy_search_ranked_top30 (qs : List LRow) (q : String) (c : Nat)
    (hq : q ≠ "") (hnd : (qs.map LRow.id).Nodup) :
    (fuzzy_search qs (some q) c).length ≤ 30 ∧
    (∀ r ∈ fuzzy_search qs (some q) c, r ∈ qs) ∧
    List.Pairwise (fun a b =>
      Frac.le (scoreOf q.data (pyProc b.title)) (scoreOf q.data (pyProc a.title)) = true)
      (fuzzy_search qs (some q) c) := by
  by_cases hqs : qs = []
  · subst hqs
    simp [fuzzy_search]
  · have hfs : fuzzy_search qs (some q) c = fuzzy_rank qs q := by
      simp [fuzzy_search, hqs, hq]
    rw [hfs]
    have hperm : (fuzzy_rank qs q).Perm
        (qs.filter (fun r => (matchedIds qs q).contains r.id)) := by
      unfold fuzzy_rank
      exact List.perm_insertionSort _ _
    have hsubqs : ∀ r ∈ qs.filter (fun r => (matchedIds qs q).contains r.id), r ∈ qs :=
      fun r hr => (List.mem_filter.mp hr).1
    have hmemmids : ∀ r ∈ qs.filter (fun r => (matchedIds qs q).contains r.id),
        r.id ∈ matchedIds qs q := by
      intro r hr
      exact List.elem_iff.mp (List.mem_filter.mp hr).2
    refine ⟨?_, ?_, ?_⟩
    · rw [hperm.length_eq]
      have h2 : ((qs.filter (fun r => (matchedIds qs q).contains r.id)).map LRow.id).Nodup :=
        hnd.sublist ((List.filter_sublist qs).map LRow.id)
      have h3 : ((qs.filter (fun r => (matchedIds qs q).contains r.id)).map LRow.id)
          ⊆ matchedIds qs q := by
        intro i hi
        rcases List.mem_map.mp hi with ⟨r, hr, rfl⟩
        exact hmemmids r hr
      have h4 := (List.subperm_of_subset h2 h3).length_le
      rw [List.length_map] at h4
      exact le_trans h4 (matchedIds_length_le qs q)
    · intro r hr
      exact hsubqs r (hperm.subset hr)
    · have hsorted : (fuzzy_rank qs q).Pairwise (rankLeRel (matchedIds qs q)) := by
        unfold fuzzy_rank
        exact List.sorted_insertionSort _ _
      rw [List.pairwise_iff_get] at hsorted ⊢
      intro i j hij
      have hmi : (fuzzy_rank qs q).get i
          ∈ qs.filter (fun r => (matchedIds qs q).contains r.id) :=
        hperm.subset (List.get_mem _ _ _)
      have hmj : (fuzzy_rank qs q).get j
          ∈ qs.filter (fun r => (matchedIds qs q).contains r.id) :=
        hperm.subset (List.get_mem _ _ _)
      exact rank_to_score qs q hnd _ _ rfl (extract_pairwise _ _ _) (extract_spec_for qs q)
        _ _ (hsubqs _ hmi) (hsubqs _ hmj) (hmemmids _ hmi) (hmemmids _ hmj)
        (hsorted i j hij)

/-- Witness for C4 at a concrete input. -/
theorem fuzzy_search_ranked_top30_witness :
    (fuzzy_search [⟨1, "cool guy"⟩, ⟨2, "cxol guy"⟩] (some "cool") 60).length ≤ 30 ∧
    (∀ r ∈ fuzzy_search [⟨1, "cool guy"⟩, ⟨2, "cxol guy"⟩] (some "cool") 60,
      r ∈ ([⟨1, "cool guy"⟩, ⟨2, "cxol guy"⟩] : List LRow)) ∧
    List.Pairwise (fun a b =>
      Frac.le (scoreOf "cool".data (pyProc b.title))
        (scoreOf "cool".data (pyProc a.title)) = true)
      (fuzzy_search [⟨1, "cool guy"⟩, ⟨2, "cxol guy"⟩] (some "cool") 60) :=
  fuzzy_search_ranked_top30 [⟨1, "cool guy"⟩, ⟨2, "cxol guy"⟩] "cool" 60
    (by decide) (by decide)

/-- C5: `fuzzy_search` short-circuits its degenerate inputs without error:
a `None` or empty query returns the input collection unchanged, in its
natural order; the empty candidate collection yields the empty list for
every query. -/
theorem fuzzy_search_short_circuits :
    (∀ (qs : List LRow) (c : Nat),
      fuzzy_search qs none c = qs ∧ fuzzy_search qs (some "") c = qs) ∧
    (∀ (query : Option String) (c : Nat), fuzzy_search [] query c = []) := by
  constructor
  · intro qs c
    by_cases h : qs = [] <;> simp [fuzzy_search, h]
  · intro query c
    cases query <;> simp [fuzzy_search]

/-- C3: in the code, only the candidates are lowercased and stripped; the
query is scored raw.  For query "COOL GUY" against candidates "cool guy"
and "cxol guy" the actual scores are 200/16 = 12.5 each - far below the
cutoff of 60 the claim expects them to clear - although the tie still
makes "cool guy" score at least "cxol guy".  Had the query been lowercased
as the spec describes (as the repository's own test_api.py does), the
scores would be 100 and 1400/16 = 87.5, both above 60. -/
theorem fuzzy_query_not_lowercased :
    Frac.lt (scoreOf "COOL GUY".data (pyProc "cool guy")) (fr 60) = true ∧
    Frac.lt (scoreOf "COOL GUY".data (pyProc "cxol guy")) (fr 60) = true ∧
    Frac.le (scoreOf "COOL GUY".data (pyProc "cxol guy"))
      (scoreOf "COOL GUY".data (pyProc "cool guy")) = true ∧
    (scoreOf "COOL GUY".data (pyProc "cool guy")).num = 200 ∧
    (scoreOf "COOL GUY".data (pyProc "cool guy")).den = 16 ∧
    Frac.le (fr 60) (scoreOf (pyProc "COOL GUY") (pyProc "cool guy")) = true ∧
    Frac.le (fr 60) (scoreOf (pyProc "COOL GUY") (pyProc "cxol guy")) = true := by
  decide

/-- C6: the cutoff of 60 is never applied on the production search path:
a candidate scoring 0 against the query (far below 60) is still returned
by `fuzzy_search` with the default cutoff 60, contradicting the docstring
"Minimum value score to appear in matched_records". -/
theorem fuzzy_search_cutoff_not_applied :
    fuzzy_search [⟨1, "alpha"⟩] (some "zzzz") 60 = [⟨1, "alpha"⟩] ∧
    Frac.lt (scoreOf "zzzz".data (pyProc "alpha")) (fr 60) = true ∧
    (scoreOf "zzzz".data (pyProc "alpha")).num = 0 := by
  decide

/-- C1: the search filter step does NOT apply all four gathered filter
groups - the float group is dropped.  With `clocks_perf_base_min=3.0`,
`gather_filters` produces the float constraint
`product__clocks_perf_base__gte = 3.0`, the stored listing violates it
(its clock is 2.0), yet `search_listings` still returns the listing,
because lines 122-126 unpack only the `str`, `int` and `bool` groups. -/
theorem search_listings_drops_float_group :
    search_listings_filter [c1_listing] "CPU" cpuFields c1_req = [c1_listing] ∧
    (gather_filters c1_req cpuFields "product__").float
      = [("product__clocks_perf_base__gte", (30, 10))] ∧
    applyDecFilter c1_listing ("product__clocks_perf_base__gte", (30, 10)) = false ∧
    (gather_filters c1_req cpuFields "product__").str = [] ∧
    (gather_filters c1_req cpuFields "product__").int = [] ∧
    (gather_filters c1_req cpuFields "product__").bool = [] := by
  decide

/-- C7: on the `Listing` model, whose `FILTER_FIELDS` are `condition` and
`price`, building the UI options over an empty table does not raise, but
`price` - a `DecimalField`, internal type "DecimalField" - lands in the
STRING option group with `{label := "Price", options := [],
user_inputs := none}`; no numeric `{min_val, max_val}` entry exists for it
(the float branch only matches internal type "FloatField").  Genuine
numeric fields do yield `{min_val := none, max_val := none}` entries on an
empty table, as the CPU conjuncts show. -/
theorem build_filter_fields_price_string_option :
    (build_filter_fields [] listingFilterAllow
        (gather_filters emptyReq listingFields "") "" listingFields).float = [] ∧
    (build_filter_fields [] listingFilterAllow
        (gather_filters emptyReq listingFields "") "" listingFields).int = [] ∧
    (build_filter_fields [] listingFilterAllow
        (gather_filters emptyReq listingFields "") "" listingFields).bool = [] ∧
    (build_filter_fields [] listingFilterAllow
        (gather_filters emptyReq listingFields "") "" listingFields).str
      = [("condition", ⟨"Condition", [], Option.none⟩),
         ("price", ⟨"Price", [], Option.none⟩)] ∧
    (build_filter_fields [] cpuFilterAllow
        (gather_filters emptyReq cpuFields "product__") "product__" cpuFields).int.lookup
        "cores_tot"
      = Option.some ⟨"Total Core Count", Option.none, Option.none, Option.none,
          Option.none⟩ ∧
    (build_filter_fields [] cpuFilterAllow
        (gather_filters emptyReq cpuFields "product__") "product__" cpuFields).float.lookup
        "clocks_perf_base"
      = Option.some ⟨"Performance Core Clock", Option.none, Option.none, Option.none,
          Option.none⟩ := by
  decide

/-- C8 counterexample: the name "Product" does not name a concrete
variant, yet `load_product_model` resolves it without error - the base is
registered in the app and `issubclass(Product, Product)` holds, so neither
failure branch fires. -/
theorem load_product_model_accepts_base :
    load_product_model "Product" = Except.ok PModel.Product ∧
    PModel.Product ∉ concreteVariants := by
  decide

/-- C8 (amended): resolution fails with `LookupError` exactly when the
(case-insensitive) name matches no model of the products app, and any
registered model - every concrete variant, but also the `Product` base -
resolves to itself; the `ValueError` branch is unreachable because every
model of the app is a `Product` subclass. -/
theorem load_product_model_resolution (s : String) :
    (apps_get_model s = Option.none →
      load_product_model s = Except.error LoadError.lookupError) ∧
    (∀ m, apps_get_model s = Option.some m → load_product_model s = Except.ok m) := by
  constructor
  · intro h
    simp [load_product_model, h]
  · intro m h
    simp [load_product_model, h, is_product_subclass]

/-- Witness for the amended C8 at concrete inputs. -/
theorem load_product_model_resolution_witness :
    load_product_model "CPU" = Except.ok PModel.CPU ∧
    load_product_model "Widget" = Except.error LoadError.lookupError :=
  ⟨(load_product_model_resolution "CPU").2 PModel.CPU (by decide),
   (load_product_model_resolution "Widget").1 (by decide)⟩
/-- Clearing primary flags does not change the id column. -/
theorem clear_primary_map_id (db : List ImgRow) (lst : Nat) :
    (clear_primary db lst).map ImgRow.id = db.map ImgRow.id := by
  unfold clear_primary
  rw [List.map_map]
  apply List.map_congr_left
  intro r hr
  by_cases h : (r.listing == lst && r.is_primary) = true <;> simp [Function.comp, h]

/-- A row of the cleared table that still belongs to the cleared listing is
not primary. -/
theorem clear_primary_no_primary (db : List ImgRow) (lst : Nat) :
    ∀ r ∈ clear_primary db lst, r.listing = lst → r.is_primary = false := by
  intro r hr hl
  unfold clear_primary at hr
  rcases List.mem_map.mp hr with ⟨r0, _, heq⟩
  by_cases h : (r0.listing == lst && r0.is_primary) = true
  · rw [if_pos h] at heq
    rw [← heq]
  · rw [if_neg h] at heq
    subst heq
    by_cases hp : r0.is_primary = true
    · exact absurd (by simp [hp, hl]) h
    · simpa using hp

/-- Replacing the row with the saved image's id does not change the id
column. -/
theorem upsert_replace_map_id (db : List ImgRow) (img : ImgRow) :
    ((db.map (fun r => if r.id == img.id then img else r)).map ImgRow.id)
      = db.map ImgRow.id := by
  rw [List.map_map]
  apply List.map_congr_left
  intro r hr
  by_cases h : (r.id == img.id) = true
  · have hid : r.id = img.id := by simpa using h
    simp [Function.comp, h, hid]
  · simp [Function.comp, h]

/-- An upsert keeps ids unique. -/
theorem upsert_map_id_nodup (db : List ImgRow) (img : ImgRow)
    (hnd : (db.map ImgRow.id).Nodup) :
    ((upsert db img).map ImgRow.id).Nodup := by
  unfold upsert
  split
  · rw [upsert_replace_map_id]
    exact hnd
  · rename_i hany
    rw [List.map_append]
    have himg : img.id ∉ db.map ImgRow.id := by
      intro hmem
      rcases List.mem_map.mp hmem with ⟨r, hr, hid⟩
      exact hany (List.any_eq_true.mpr ⟨r, hr, by simp [hid]⟩)
    simp only [List.map_cons, List.map_nil]
    refine List.Nodup.append hnd (List.nodup_singleton _) ?_
    intro x hx hy
    rcases List.mem_singleton.mp hy with rfl
    exact himg hx

/-- Saving never disturbs the uniqueness of ids. -/
theorem save_map_id_nodup (db : List ImgRow) (img : ImgRow)
    (hnd : (db.map ImgRow.id).Nodup) :
    ((ListingImage_save db img).map ImgRow.id).Nodup := by
  unfold ListingImage_save
  apply upsert_map_id_nodup
  by_cases hp : img.is_primary = true
  · rw [if_pos hp, clear_primary_map_id]
    exact hnd
  · rw [if_neg hp]
    exact hnd

/-- Pointwise bound: a map that either keeps each element or maps it out of
the predicate cannot increase the filtered count. -/
theorem filter_length_map_le {α : Type} (p : α → Bool) (f : α → α) (l : List α)
    (h : ∀ a ∈ l, f a = a ∨ p (f a) = false) :
    ((l.map f).filter p).length ≤ (l.filter p).length := by
  induction l with
  | nil => simp
  | cons a t ih =>
    have ih2 := ih (fun x hx => h x (List.mem_cons_of_mem _ hx))
    rcases h a (List.mem_cons_self _ _) with ha | ha
    · rw [List.map_cons, ha]
      by_cases hp : p a = true
      · simp only [List.filter_cons, hp, if_pos]
        simpa using ih2
      · simp only [List.filter_cons, eq_false_of_ne_true hp]
        simpa using ih2
    · rw [List.map_cons]
      rw [List.filter_cons, List.filter_cons, ha]
      by_cases hp : p a = true
      · simp only [hp, if_pos]
        simp only [Bool.false_eq_true, if_false]
        exact le_trans ih2 (by simp)
      · simp only [eq_false_of_ne_true hp]
        simpa using ih2

/-- A list of pairwise-distinct keys all equal to one constant has at most
one element. -/
theorem length_le_one_of_nodup_const {α β : Type} (l : List α) (f : α → β) (c : β)
    (hnd : (l.map f).Nodup) (hall : ∀ a ∈ l, f a = c) : l.length ≤ 1 := by
  match l with
  | [] => simp
  | [a] => simp
  | a :: b :: t =>
    exfalso
    rw [List.map_cons, List.map_cons, List.nodup_cons] at hnd
    apply hnd.1
    rw [hall a (List.mem_cons_self _ _),
      ← hall b (List.mem_cons_of_mem _ (List.mem_cons_self _ _))]
    exact List.mem_cons_self _ _

/-- The invariant extended to every listing value (absent listings filter
to the empty list). -/
theorem atMostOnePrimary_all (db : List ImgRow) (hinv : atMostOnePrimary db) :
    ∀ lst : Nat, (db.filter (fun r => r.listing == lst && r.is_primary)).length ≤ 1 := by
  intro lst
  by_cases hmem : lst ∈ db.map ImgRow.listing
  · exact hinv lst hmem
  · have : db.filter (fun r => r.listing == lst && r.is_primary) = [] := by
      rw [List.filter_eq_nil_iff]
      intro r hr hp
      rcases Bool.and_eq_true_iff.mp hp with ⟨h1, _⟩
      exact hmem (by
        have hll : r.listing = lst := by simpa using h1
        rw [← hll]
        exact List.mem_map_of_mem _ hr)
    rw [this]
    simp

/-- After saving a primary image, every primary image of its listing is the
saved image itself. -/
theorem save_primary_unique (db : List ImgRow) (img : ImgRow)
    (hp : img.is_primary = true) :
    ∀ r ∈ ListingImage_save db img, r.listing = img.listing → r.is_primary = true →
      r.id = img.id := by
  intro r hr hl hpr
  unfold ListingImage_save at hr
  rw [if_pos hp] at hr
  have hclear : ∀ r0 ∈ clear_primary db img.listing,
      r0.listing = img.listing → r0.is_primary = false :=
    clear_primary_no_primary db img.listing
  unfold upsert at hr
  split at hr
  · rcases List.mem_map.mp hr with ⟨r0, hr0, heq⟩
    by_cases hb : (r0.id == img.id) = true
    · rw [if_pos hb] at heq
      rw [← heq]
    · rw [if_neg hb] at heq
      rw [← heq] at hl hpr
      exact absurd (hclear r0 hr0 hl) (by simp [hpr])
  · rcases List.mem_append.mp hr with hin | hone
    · exact absurd (hclear r hin hl) (by simp [hpr])
    · rw [List.mem_singleton.mp hone]

/-- The saved image itself is present after saving. -/
theorem save_mem (db : List ImgRow) (img : ImgRow) :
    img ∈ ListingImage_save db img := by
  unfold ListingImage_save
  have hup : ∀ db1 : List ImgRow, img ∈ upsert db1 img := by
    intro db1
    unfold upsert
    split
    · rename_i hany
      rcases List.any_eq_true.mp hany with ⟨r, hr, hb⟩
      exact List.mem_map.mpr ⟨r, hr, by rw [if_pos hb]⟩
    · exact List.mem_append.mpr (Or.inr (List.mem_singleton.mpr rfl))
  exact hup _

/-- When the saved image itself does not satisfy the primary predicate of
listing `lst` (different listing, or not primary), saving cannot increase
the primary count of `lst`. -/
theorem save_filter_le (db : List ImgRow) (img : ImgRow) (lst : Nat)
    (hP : (img.listing == lst && img.is_primary) = false) :
    ((ListingImage_save db img).filter
        (fun r => r.listing == lst && r.is_primary)).length
      ≤ (db.filter (fun r => r.listing == lst && r.is_primary)).length := by
  unfold ListingImage_save
  have hup : ∀ db1 : List ImgRow,
      ((upsert db1 img).filter (fun r => r.listing == lst && r.is_primary)).length
        ≤ (db1.filter (fun r => r.listing == lst && r.is_primary)).length := by
    intro db1
    unfold upsert
    split
    · apply filter_length_map_le
      intro a _
      by_cases hb : (a.id == img.id) = true
      · right
        rw [if_pos hb]
        exact hP
      · left
        rw [if_neg hb]
    · rw [List.filter_append]
      simp [List.filter_cons, hP]
  have hdb1 : ((if img.is_primary then clear_primary db img.listing else db).filter
        (fun r => r.listing == lst && r.is_primary)).length
      ≤ (db.filter (fun r => r.listing == lst && r.is_primary)).length := by
    by_cases hp : img.is_primary = true
    · rw [if_pos hp]
      unfold clear_primary
      apply filter_length_map_le
      intro a _
      by_cases hc : (a.listing == img.listing && a.is_primary) = true
      · right
        rw [if_pos hc]
        simp
      · left
        rw [if_neg hc]
    · rw [if_neg hp]
  exact le_trans (hup _) hdb1

/-- C9: at most one image per listing is flagged primary, enforced by the
image entity's own save operation: the invariant is preserved by every
save, and saving image A as primary for a listing that already has a
primary image B leaves A present and flagged while every primary image of
that listing is A - for all orderings of save calls, since the statement
quantifies over every prior database state satisfying the invariant. -/
theorem listing_image_primary_invariant (db : List ImgRow) (img : ImgRow)
    (hnd : (db.map ImgRow.id).Nodup) (hinv : atMostOnePrimary db) :
    atMostOnePrimary (ListingImage_save db img) ∧
    (img.is_primary = true →
      img ∈ ListingImage_save db img ∧
      ∀ r ∈ ListingImage_save db img, r.listing = img.listing → r.is_primary = true →
        r.id = img.id) := by
  constructor
  · intro lst _
    by_cases hp : img.is_primary = true
    · by_cases hl : lst = img.listing
      · subst hl
        apply length_le_one_of_nodup_const _ ImgRow.id img.id
        · exact (save_map_id_nodup db img hnd).sublist
            ((List.filter_sublist _).map ImgRow.id)
        · intro r hr
          have hrmem := List.mem_filter.mp hr
          rcases Bool.and_eq_true_iff.mp hrmem.2 with ⟨h1, h2⟩
          exact save_primary_unique db img hp r hrmem.1 (by simpa using h1) h2
      · have hbe : (img.listing == lst) = false :=
          beq_eq_false_iff_ne.mpr (fun he => hl he.symm)
        exact le_trans (save_filter_le db img lst (by rw [hbe]; rfl))
          (atMostOnePrimary_all db hinv lst)
    · have hP : (img.listing == lst && img.is_primary) = false := by
        simp [eq_false_of_ne_true hp]
      exact le_trans (save_filter_le db img lst hP) (atMostOnePrimary_all db hinv lst)
  · intro hp
    exact ⟨save_mem db img, save_primary_unique db img hp⟩

/-- Witness for C9: saving image 2 as primary for listing 7, which already
has primary image 1. -/
theorem listing_image_primary_invariant_witness :
    atMostOnePrimary (ListingImage_save [⟨1, 7, true⟩] ⟨2, 7, true⟩) ∧
    ((⟨2, 7, true⟩ : ImgRow).is_primary = true →
      (⟨2, 7, true⟩ : ImgRow) ∈ ListingImage_save [⟨1, 7, true⟩] ⟨2, 7, true⟩ ∧
      ∀ r ∈ ListingImage_save [⟨1, 7, true⟩] ⟨2, 7, true⟩,
        r.listing = (⟨2, 7, true⟩ : ImgRow).listing → r.is_primary = true →
          r.id = (⟨2, 7, true⟩ : ImgRow).id) :=
  listing_image_primary_invariant [⟨1, 7, true⟩] ⟨2, 7, true⟩ (by decide) (by decide)

/-- Strings with equal data are equal. -/
theorem string_data_inj {s t : String} (h : s.data = t.data) : s = t := by
  cases s
  cases t
  exact congrArg String.mk h

/-- Left cancellation of string append. -/
theorem string_append_left_cancel {a s t : String} (h : a ++ s = a ++ t) : s = t := by
  apply string_data_inj
  have hd := congrArg String.data h
  rw [String.data_append, String.data_append] at hd
  exact List.append_cancel_left hd

/-- Right cancellation of string append. -/
theorem string_append_right_cancel {a s t : String} (h : s ++ a = t ++ a) : s = t := by
  apply string_data_inj
  have hd := congrArg String.data h
  rw [String.data_append, String.data_append] at hd
  exact List.append_cancel_right hd

/-- Two lookup keys built from the same prefix and equal-length operator
suffixes agree exactly on their middles and suffixes. -/
theorem key_parts_eq {pre n1 n2 s1 s2 : String}
    (h : pre ++ n1 ++ s1 = pre ++ n2 ++ s2) (hl : s1.data.length = s2.data.length) :
    n1 = n2 ∧ s1 = s2 := by
  have h2 : n1 ++ s1 = n2 ++ s2 := by
    rw [String.append_assoc, String.append_assoc] at h
    exact string_append_left_cancel h
  have hd := congrArg String.data h2
  rw [String.data_append, String.data_append] at hd
  have hlen : n1.data.length = n2.data.length := by
    have := congrArg List.length hd
    simp only [List.length_append] at this
    omega
  obtain ⟨ha, hb⟩ := List.append_inj hd hlen
  exact ⟨string_data_inj ha, string_data_inj hb⟩

/-- The integer group of one field's contribution: nonempty only for a
concrete, non-relational `PositiveIntegerField`. -/
theorem field_filters_int (req : Request) (pre : String) (f : Field) :
    (field_filters req pre f).int
      = if f.concrete = true ∧ f.is_relation = false
          ∧ f.internal_type = "PositiveIntegerField"
        then int_bounds req pre f.name else [] := by
  unfold field_filters
  by_cases hc : f.concrete = true
  · by_cases hrl : f.is_relation = true
    · simp [hc, hrl]
    · have hrl2 : f.is_relation = false := eq_false_of_ne_true hrl
      by_cases ht : f.internal_type = "PositiveIntegerField"
      · simp [hc, hrl2, ht]
      · by_cases ht2 : f.internal_type = "FloatField" <;>
          by_cases ht3 : f.internal_type = "BooleanField" <;>
            simp [hc, hrl2, ht, ht2, ht3]
  · have hc2 : f.concrete = false := eq_false_of_ne_true hc
    simp [hc2]

/-- The float group of one field's contribution: nonempty only for a
concrete, non-relational `FloatField`. -/
theorem field_filters_float (req : Request) (pre : String) (f : Field) :
    (field_filters req pre f).float
      = if f.concrete = true ∧ f.is_relation = false
          ∧ f.internal_type = "FloatField"
        then float_bounds req pre f.name else [] := by
  unfold field_filters
  by_cases hc : f.concrete = true
  · by_cases hrl : f.is_relation = true
    · simp [hc, hrl]
    · have hrl2 : f.is_relation = false := eq_false_of_ne_true hrl
      by_cases ht : f.internal_type = "PositiveIntegerField"
      · have : f.internal_type ≠ "FloatField" := by rw [ht]; decide
        simp [hc, hrl2, ht, this]
      · by_cases ht2 : f.internal_type = "FloatField" <;>
          by_cases ht3 : f.internal_type = "BooleanField" <;>
            simp [hc, hrl2, ht, ht2, ht3]
  · have hc2 : f.concrete = false := eq_false_of_ne_true hc
    simp [hc2]

/-- The string group of one field's contribution: nonempty only for a
concrete, non-relational field of none of the three special internal
types. -/
theorem field_filters_str (req : Request) (pre : String) (f : Field) :
    (field_filters req pre f).str
      = if f.concrete = true ∧ f.is_relation = false
          ∧ f.internal_type ≠ "PositiveIntegerField"
          ∧ f.internal_type ≠ "FloatField"
          ∧ f.internal_type ≠ "BooleanField"
        then str_values req pre f.name else [] := by
  unfold field_filters
  by_cases hc : f.concrete = true
  · by_cases hrl : f.is_relation = true
    · simp [hc, hrl]
    · have hrl2 : f.is_relation = false := eq_false_of_ne_true hrl
      by_cases ht : f.internal_type = "PositiveIntegerField"
      · simp [hc, hrl2, ht]
      · by_cases ht2 : f.internal_type = "FloatField" <;>
          by_cases ht3 : f.internal_type = "BooleanField" <;>
            simp [hc, hrl2, ht, ht2, ht3]
  · have hc2 : f.concrete = false := eq_false_of_ne_true hc
    simp [hc2]

/-- Membership in the gathered integer group is membership in some field's
contribution. -/
theorem gather_int_mem (req : Request) (fs : List Field) (pre : String)
    (kv : String × Int) :
    (kv ∈ (gather_filters req fs pre).int ↔
      ∃ f ∈ fs, kv ∈ (field_filters req pre f).int) := by
  induction fs with
  | nil => simp [gather_filters]
  | cons f0 fs ih =>
    simp only [gather_filters, List.mem_append]
    constructor
    · intro h
      rcases h with h | h
      · exact ⟨f0, List.mem_cons_self _ _, h⟩
      · rcases ih.mp h with ⟨f, hf, hmem⟩
        exact ⟨f, List.mem_cons_of_mem _ hf, hmem⟩
    · rintro ⟨f, hf, hmem⟩
      rcases List.mem_cons.mp hf with rfl | hf2
      · exact Or.inl hmem
      · exact Or.inr (ih.mpr ⟨f, hf2, hmem⟩)

/-- Membership in the gathered float group is membership in some field's
contribution. -/
theorem gather_float_mem (req : Request) (fs : List Field) (pre : String)
    (kv : String × (Int × Nat)) :
    (kv ∈ (gather_filters req fs pre).float ↔
      ∃ f ∈ fs, kv ∈ (field_filters req pre f).float) := by
  induction fs with
  | nil => simp [gather_filters]
  | cons f0 fs ih =>
    simp only [gather_filters, List.mem_append]
    constructor
    · intro h
      rcases h with h | h
      · exact ⟨f0, List.mem_cons_self _ _, h⟩
      · rcases ih.mp h with ⟨f, hf, hmem⟩
        exact ⟨f, List.mem_cons_of_mem _ hf, hmem⟩
    · rintro ⟨f, hf, hmem⟩
      rcases List.mem_cons.mp hf with rfl | hf2
      · exact Or.inl hmem
      · exact Or.inr (ih.mpr ⟨f, hf2, hmem⟩)

/-- Membership in the gathered string group is membership in some field's
contribution. -/
theorem gather_str_mem (req : Request) (fs : List Field) (pre : String)
    (kv : String × List String) :
    (kv ∈ (gather_filters req fs pre).str ↔
      ∃ f ∈ fs, kv ∈ (field_filters req pre f).str) := by
  induction fs with
  | nil => simp [gather_filters]
  | cons f0 fs ih =>
    simp only [gather_filters, List.mem_append]
    constructor
    · intro h
      rcases h with h | h
      · exact ⟨f0, List.mem_cons_self _ _, h⟩
      · rcases ih.mp h with ⟨f, hf, hmem⟩
        exact ⟨f, List.mem_cons_of_mem _ hf, hmem⟩
    · rintro ⟨f, hf, hmem⟩
      rcases List.mem_cons.mp hf with rfl | hf2
      · exact Or.inl hmem
      · exact Or.inr (ih.mpr ⟨f, hf2, hmem⟩)

/-- Every integer-bound entry is keyed `<pre><name>__gte` or
`<pre><name>__lte`. -/
theorem int_bounds_key (req : Request) (pre n : String) :
    ∀ kv ∈ int_bounds req pre n,
      kv.1 = pre ++ n ++ "__gte" ∨ kv.1 = pre ++ n ++ "__lte" := by
  intro kv h
  unfold int_bounds at h
  rcases List.mem_append.mp h with h | h
  · left
    rcases hm : req.get (n ++ "_min") with _ | s
    · simp [hm] at h
    · simp only [hm] at h
      by_cases hs : s = ""
      · simp [hs] at h
      · simp only [if_neg hs] at h
        rcases hp : pyInt s with _ | w
        · simp [hp] at h
        · simp only [hp] at h
          rw [List.mem_singleton.mp h]
  · right
    rcases hm : req.get (n ++ "_max") with _ | s
    · simp [hm] at h
    · simp only [hm] at h
      by_cases hs : s = ""
      · simp [hs] at h
      · simp only [if_neg hs] at h
        rcases hp : pyInt s with _ | w
        · simp [hp] at h
        · simp only [hp] at h
          rw [List.mem_singleton.mp h]

/-- Every float-bound entry is keyed `<pre><name>__gte` or
`<pre><name>__lte`. -/
theorem float_bounds_key (req : Request) (pre n : String) :
    ∀ kv ∈ float_bounds req pre n,
      kv.1 = pre ++ n ++ "__gte" ∨ kv.1 = pre ++ n ++ "__lte" := by
  intro kv h
  unfold float_bounds at h
  rcases List.mem_append.mp h with h | h
  · left
    rcases hm : req.get (n ++ "_min") with _ | s
    · simp [hm] at h
    · simp only [hm] at h
      by_cases hs : s = ""
      · simp [hs] at h
      · simp only [if_neg hs] at h
        rcases hp : pyFloat s with _ | w
        · simp [hp] at h
        · simp only [hp] at h
          rw [List.mem_singleton.mp h]
  · right
    rcases hm : req.get (n ++ "_max") with _ | s
    · simp [hm] at h
    · simp only [hm] at h
      by_cases hs : s = ""
      · simp [hs] at h
      · simp only [if_neg hs] at h
        rcases hp : pyFloat s with _ | w
        · simp [hp] at h
        · simp only [hp] at h
          rw [List.mem_singleton.mp h]

/-- Every string-membership entry is keyed `<pre><name>__in`. -/
theorem str_values_key (req : Request) (pre n : String) :
    ∀ kv ∈ str_values req pre n, kv.1 = pre ++ n ++ "__in" := by
  intro kv h
  unfold str_values at h
  by_cases he : (req.getlist n).isEmpty = true
  · simp [he] at h
  · simp only [if_neg he] at h
    rw [List.mem_singleton.mp h]

/-- The operator suffixes of distinct bounds never collide. -/
theorem key_gte_ne_lte (pre n : String) : pre ++ n ++ "__gte" ≠ pre ++ n ++ "__lte" := by
  intro h
  exact absurd ((key_parts_eq h (by decide)).2) (by decide)

/-- The gte entry of the integer bounds is present exactly for a present,
non-empty, parseable `<name>_min` parameter. -/
theorem int_bounds_mem_gte (req : Request) (pre n : String) (v : Int) :
    ((pre ++ n ++ "__gte", v) ∈ int_bounds req pre n ↔
      ∃ s, req.get (n ++ "_min") = Option.some s ∧ s ≠ "" ∧ pyInt s = Option.some v) := by
  unfold int_bounds
  constructor
  · intro h
    rcases List.mem_append.mp h with h | h
    · rcases hm : req.get (n ++ "_min") with _ | s
      · simp [hm] at h
      · simp only [hm] at h
        by_cases hs : s = ""
        · simp [hs] at h
        · simp only [if_neg hs] at h
          rcases hp : pyInt s with _ | w
          · simp [hp] at h
          · simp only [hp] at h
            have heq := List.mem_singleton.mp h
            have hv : v = w := congrArg Prod.snd heq
            rw [hv]
            exact ⟨s, rfl, hs, hp⟩
    · rcases hm : req.get (n ++ "_max") with _ | s
      · simp [hm] at h
      · simp only [hm] at h
        by_cases hs : s = ""
        · simp [hs] at h
        · simp only [if_neg hs] at h
          rcases hp : pyInt s with _ | w
          · simp [hp] at h
          · simp only [hp] at h
            exact absurd (congrArg Prod.fst (List.mem_singleton.mp h))
              (key_gte_ne_lte pre n)
  · rintro ⟨s, hm, hs, hp⟩
    apply List.mem_append.mpr
    left
    simp [hm, hs, hp]

/-- The lte entry of the integer bounds is present exactly for a present,
non-empty, parseable `<name>_max` parameter. -/
theorem int_bounds_mem_lte (req : Request) (pre n : String) (v : Int) :
    ((pre ++ n ++ "__lte", v) ∈ int_bounds req pre n ↔
      ∃ s, req.get (n ++ "_max") = Option.some s ∧ s ≠ "" ∧ pyInt s = Option.some v) := by
  unfold int_bounds
  constructor
  · intro h
    rcases List.mem_append.mp h with h | h
    · rcases hm : req.get (n ++ "_min") with _ | s
      · simp [hm] at h
      · simp only [hm] at h
        by_cases hs : s = ""
        · simp [hs] at h
        · simp only [if_neg hs] at h
          rcases hp : pyInt s with _ | w
          · simp [hp] at h
          · simp only [hp] at h
            exact absurd (congrArg Prod.fst (List.mem_singleton.mp h)).symm
              (key_gte_ne_lte pre n)
    · rcases hm : req.get (n ++ "_max") with _ | s
      · simp [hm] at h
      · simp only [hm] at h
        by_cases hs : s = ""
        · simp [hs] at h
        · simp only [if_neg hs] at h
          rcases hp : pyInt s with _ | w
          · simp [hp] at h
          · simp only [hp] at h
            have heq := List.mem_singleton.mp h
            have hv : v = w := congrArg Prod.snd heq
            rw [hv]
            exact ⟨s, rfl, hs, hp⟩
  · rintro ⟨s, hm, hs, hp⟩
    apply List.mem_append.mpr
    right
    simp [hm, hs, hp]

/-- The gte entry of the float bounds is present exactly for a present,
non-empty, parseable `<name>_min` parameter. -/
theorem float_bounds_mem_gte (req : Request) (pre n : String) (v : Int × Nat) :
    ((pre ++ n ++ "__gte", v) ∈ float_bounds req pre n ↔
      ∃ s, req.get (n ++ "_min") = Option.some s ∧ s ≠ "" ∧ pyFloat s = Option.some v) := by
  unfold float_bounds
  constructor
  · intro h
    rcases List.mem_append.mp h with h | h
    · rcases hm : req.get (n ++ "_min") with _ | s
      · simp [hm] at h
      · simp only [hm] at h
        by_cases hs : s = ""
        · simp [hs] at h
        · simp only [if_neg hs] at h
          rcases hp : pyFloat s with _ | w
          · simp [hp] at h
          · simp only [hp] at h
            have heq := List.mem_singleton.mp h
            have hv : v = w := congrArg Prod.snd heq
            rw [hv]
            exact ⟨s, rfl, hs, hp⟩
    · rcases hm : req.get (n ++ "_max") with _ | s
      · simp [hm] at h
      · simp only [hm] at h
        by_cases hs : s = ""
        · simp [hs] at h
        · simp only [if_neg hs] at h
          rcases hp : pyFloat s with _ | w
          · simp [hp] at h
          · simp only [hp] at h
            exact absurd (congrArg Prod.fst (List.mem_singleton.mp h))
              (key_gte_ne_lte pre n)
  · rintro ⟨s, hm, hs, hp⟩
    apply List.mem_append.mpr
    left
    simp [hm, hs, hp]

/-- The lte entry of the float bounds is present exactly for a present,
non-empty, parseable `<name>_max` parameter. -/
theorem float_bounds_mem_lte (req : Request) (pre n : String) (v : Int × Nat) :
    ((pre ++ n ++ "__lte", v) ∈ float_bounds req pre n ↔
      ∃ s, req.get (n ++ "_max") = Option.some s ∧ s ≠ "" ∧ pyFloat s = Option.some v) := by
  unfold float_bounds
  constructor
  · intro h
    rcases List.mem_append.mp h with h | h
    · rcases hm : req.get (n ++ "_min") with _ | s
      · simp [hm] at h
      · simp only [hm] at h
        by_cases hs : s = ""
        · simp [hs] at h
        · simp only [if_neg hs] at h
          rcases hp : pyFloat s with _ | w
          · simp [hp] at h
          · simp only [hp] at h
            exact absurd (congrArg Prod.fst (List.mem_singleton.mp h)).symm
              (key_gte_ne_lte pre n)
    · rcases hm : req.get (n ++ "_max") with _ | s
      · simp [hm] at h
      · simp only [hm] at h
        by_cases hs : s = ""
        · simp [hs] at h
        · simp only [if_neg hs] at h
          rcases hp : pyFloat s with _ | w
          · simp [hp] at h
          · simp only [hp] at h
            have heq := List.mem_singleton.mp h
            have hv : v = w := congrArg Prod.snd heq
            rw [hv]
            exact ⟨s, rfl, hs, hp⟩
  · rintro ⟨s, hm, hs, hp⟩
    apply List.mem_append.mpr
    right
    simp [hm, hs, hp]

/-- The string-membership entry is present exactly for a nonempty
multi-value parameter. -/
theorem str_values_mem (req : Request) (pre n : String) (vs : List String) :
    ((pre ++ n ++ "__in", vs) ∈ str_values req pre n ↔
      req.getlist n = vs ∧ vs ≠ []) := by
  unfold str_values
  by_cases he : (req.getlist n).isEmpty = true
  · simp only [if_pos he]
    constructor
    · intro h
      exact absurd h (List.not_mem_nil _)
    · rintro ⟨hv, hne⟩
      exact absurd (List.isEmpty_iff.mp he) (hv ▸ hne)
  · simp only [if_neg he]
    constructor
    · intro h
      have heq := List.mem_singleton.mp h
      have hv : vs = req.getlist n := congrArg Prod.snd heq
      refine ⟨hv.symm, ?_⟩
      rw [hv]
      intro hnil
      exact he (List.isEmpty_iff.mpr hnil)
    · rintro ⟨hv, _⟩
      rw [← hv]
      exact List.mem_singleton.mpr rfl

/-- C2: for every integer or float field of the model and every pair of
(min, max) parameter strings, `gather_filters` keeps a bound exactly when
its parameter is present, non-empty and parses in the field's numeric type;
an absent, empty or malformed bound is omitted while the other bound is
kept if valid, and when both are invalid no constraint at all exists for
the field.  No error is ever raised (the embedding is a total function;
the source wraps each parse in `try/except ValueError: pass`). -/
theorem gather_filters_numeric_bounds
    (req : Request) (fields : List Field) (pre : String) (f : Field)
    (hf : f ∈ fields) (hnd : (fields.map Field.name).Nodup)
    (hc : f.concrete = true) (hr : f.is_relation = false) :
    (f.internal_type = "PositiveIntegerField" →
      (∀ v : Int,
        ((pre ++ f.name ++ "__gte", v) ∈ (gather_filters req fields pre).int ↔
          ∃ s, req.get (f.name ++ "_min") = Option.some s ∧ s ≠ ""
            ∧ pyInt s = Option.some v)) ∧
      (∀ v : Int,
        ((pre ++ f.name ++ "__lte", v) ∈ (gather_filters req fields pre).int ↔
          ∃ s, req.get (f.name ++ "_max") = Option.some s ∧ s ≠ ""
            ∧ pyInt s = Option.some v))) ∧
    (f.internal_type = "FloatField" →
      (∀ v : Int × Nat,
        ((pre ++ f.name ++ "__gte", v) ∈ (gather_filters req fields pre).float ↔
          ∃ s, req.get (f.name ++ "_min") = Option.some s ∧ s ≠ ""
            ∧ pyFloat s = Option.some v)) ∧
      (∀ v : Int × Nat,
        ((pre ++ f.name ++ "__lte", v) ∈ (gather_filters req fields pre).float ↔
          ∃ s, req.get (f.name ++ "_max") = Option.some s ∧ s ≠ ""
            ∧ pyFloat s = Option.some v))) := by
  constructor
  · intro ht
    constructor
    · intro v
      constructor
      · intro h
        rcases (gather_int_mem req fields pre _).mp h with ⟨g, hg, hmem⟩
        rw [field_filters_int] at hmem
        by_cases hcond : g.concrete = true ∧ g.is_relation = false
            ∧ g.internal_type = "PositiveIntegerField"
        · rw [if_pos hcond] at hmem
          rcases int_bounds_key req pre g.name _ hmem with hk | hk
          · have hname : g.name = f.name := ((key_parts_eq hk (by decide)).1).symm
            have hgf : g = f := List.inj_on_of_nodup_map hnd hg hf hname
            rw [hgf] at hmem
            exact (int_bounds_mem_gte req pre f.name v).mp hmem
          · exact absurd ((key_parts_eq hk (by decide)).2) (by decide)
        · rw [if_neg hcond] at hmem
          exact absurd hmem (List.not_mem_nil _)
      · intro hex
        apply (gather_int_mem req fields pre _).mpr
        refine ⟨f, hf, ?_⟩
        rw [field_filters_int, if_pos ⟨hc, hr, ht⟩]
        exact (int_bounds_mem_gte req pre f.name v).mpr hex
    · intro v
      constructor
      · intro h
        rcases (gather_int_mem req fields pre _).mp h with ⟨g, hg, hmem⟩
        rw [field_filters_int] at hmem
        by_cases hcond : g.concrete = true ∧ g.is_relation = false
            ∧ g.internal_type = "PositiveIntegerField"
        · rw [if_pos hcond] at hmem
          rcases int_bounds_key req pre g.name _ hmem with hk | hk
          · exact absurd ((key_parts_eq hk (by decide)).2) (by decide)
          · have hname : g.name = f.name := ((key_parts_eq hk (by decide)).1).symm
            have hgf : g = f := List.inj_on_of_nodup_map hnd hg hf hname
            rw [hgf] at hmem
            exact (int_bounds_mem_lte req pre f.name v).mp hmem
        · rw [if_neg hcond] at hmem
          exact absurd hmem (List.not_mem_nil _)
      · intro hex
        apply (gather_int_mem req fields pre _).mpr
        refine ⟨f, hf, ?_⟩
        rw [field_filters_int, if_pos ⟨hc, hr, ht⟩]
        exact (int_bounds_mem_lte req pre f.name v).mpr hex
  · intro ht
    constructor
    · intro v
      constructor
      · intro h
        rcases (gather_float_mem req fields pre _).mp h with ⟨g, hg, hmem⟩
        rw [field_filters_float] at hmem
        by_cases hcond : g.concrete = true ∧ g.is_relation = false
            ∧ g.internal_type = "FloatField"
        · rw [if_pos hcond] at hmem
          rcases float_bounds_key req pre g.name _ hmem with hk | hk
          · have hname : g.name = f.name := ((key_parts_eq hk (by decide)).1).symm
            have hgf : g = f := List.inj_on_of_nodup_map hnd hg hf hname
            rw [hgf] at hmem
            exact (float_bounds_mem_gte req pre f.name v).mp hmem
          · exact absurd ((key_parts_eq hk (by decide)).2) (by decide)
        · rw [if_neg hcond] at hmem
          exact absurd hmem (List.not_mem_nil _)
      · intro hex
        apply (gather_float_mem req fields pre _).mpr
        refine ⟨f, hf, ?_⟩
        rw [field_filters_float, if_pos ⟨hc, hr, ht⟩]
        exact (float_bounds_mem_gte req pre f.name v).mpr hex
    · intro v
      constructor
      · intro h
        rcases (gather_float_mem req fields pre _).mp h with ⟨g, hg, hmem⟩
        rw [field_filters_float] at hmem
        by_cases hcond : g.concrete = true ∧ g.is_relation = false
            ∧ g.internal_type = "FloatField"
        · rw [if_pos hcond] at hmem
          rcases float_bounds_key req pre g.name _ hmem with hk | hk
          · exact absurd ((key_parts_eq hk (by decide)).2) (by decide)
          · have hname : g.name = f.name := ((key_parts_eq hk (by decide)).1).symm
            have hgf : g = f := List.inj_on_of_nodup_map hnd hg hf hname
            rw [hgf] at hmem
            exact (float_bounds_mem_lte req pre f.name v).mp hmem
        · rw [if_neg hcond] at hmem
          exact absurd hmem (List.not_mem_nil _)
      · intro hex
        apply (gather_float_mem req fields pre _).mpr
        refine ⟨f, hf, ?_⟩
        rw [field_filters_float, if_pos ⟨hc, hr, ht⟩]
        exact (float_bounds_mem_lte req pre f.name v).mpr hex

/-- Witness for C2 on the Listing model: `stock_min=5` is kept as
`stock__gte = 5`, while the malformed `stock_max=oops` yields no `lte`
bound at all. -/
theorem gather_filters_numeric_bounds_witness :
    (("stock__gte", (5 : Int)) ∈
      (gather_filters ⟨[("stock_min", ["5"]), ("stock_max", ["oops"])]⟩
        listingFields "").int) ∧
    (∀ v : Int, ("stock__lte", v) ∉
      (gather_filters ⟨[("stock_min", ["5"]), ("stock_max", ["oops"])]⟩
        listingFields "").int) := by
  have h := gather_filters_numeric_bounds
    ⟨[("stock_min", ["5"]), ("stock_max", ["oops"])]⟩ listingFields ""
    ⟨"stock", "Stock", "PositiveIntegerField", true, false⟩
    (by decide) (by decide) rfl rfl
  constructor
  · exact ((h.1 rfl).1 5).mpr ⟨"5", by decide, by decide, by decide⟩
  · intro v hv
    rcases ((h.1 rfl).2 v).mp hv with ⟨s, hs1, _, hs3⟩
    have hev : Request.get ⟨[("stock_min", ["5"]), ("stock_max", ["oops"])]⟩
        ("stock" ++ "_max") = Option.some "oops" := by decide
    have hso : s = "oops" := Option.some.inj (hs1.symm.trans hev)
    rw [hso] at hs3
    have hnone : pyInt "oops" = Option.none := by decide
    rw [hnone] at hs3
    exact Option.noConfusion hs3

/-- C10: every concrete, non-relational field whose internal type is none
of PositiveIntegerField, FloatField or BooleanField is classified into the
string set-membership group: a repeated request parameter bearing the
field's name yields exactly the `<field>__in` membership constraint.  In
particular (see the witness) this covers the auto primary key `id`, the
`DecimalField` columns `price` and `shipping_cost`, and `JSONField`s such
as `part_numbers`. -/
theorem gather_filters_string_membership
    (req : Request) (fields : List Field) (pre : String) (f : Field)
    (hf : f ∈ fields) (hnd : (fields.map Field.name).Nodup)
    (hc : f.concrete = true) (hr : f.is_relation = false)
    (h1 : f.internal_type ≠ "PositiveIntegerField")
    (h2 : f.internal_type ≠ "FloatField")
    (h3 : f.internal_type ≠ "BooleanField") :
    ∀ vs : List String,
      ((pre ++ f.name ++ "__in", vs) ∈ (gather_filters req fields pre).str ↔
        req.getlist f.name = vs ∧ vs ≠ []) := by
  intro vs
  constructor
  · intro h
    rcases (gather_str_mem req fields pre _).mp h with ⟨g, hg, hmem⟩
    rw [field_filters_str] at hmem
    by_cases hcond : g.concrete = true ∧ g.is_relation = false
        ∧ g.internal_type ≠ "PositiveIntegerField"
        ∧ g.internal_type ≠ "FloatField"
        ∧ g.internal_type ≠ "BooleanField"
    · rw [if_pos hcond] at hmem
      have hk := str_values_key req pre g.name _ hmem
      have hname : g.name = f.name := ((key_parts_eq hk (by decide)).1).symm
      have hgf : g = f := List.inj_on_of_nodup_map hnd hg hf hname
      rw [hgf] at hmem
      exact (str_values_mem req pre f.name vs).mp hmem
    · rw [if_neg hcond] at hmem
      exact absurd hmem (List.not_mem_nil _)
  · intro hex
    apply (gather_str_mem req fields pre _).mpr
    refine ⟨f, hf, ?_⟩
    rw [field_filters_str, if_pos ⟨hc, hr, h1, h2, h3⟩]
    exact (str_values_mem req pre f.name vs).mpr hex

/-- Witness for C10: an `id` parameter filters Listing rows by primary-key
membership at the search surface, and the DecimalField `price` and
`shipping_cost` of Listing and the JSONField `part_numbers` of the catalog
entry all take `__in` constraints the same way. -/
theorem gather_filters_string_membership_witness :
    (("id__in", ["3"]) ∈ (gather_filters ⟨[("id", ["3"])]⟩ listingFields "").str) ∧
    (("price__in", ["10.00"]) ∈
      (gather_filters ⟨[("price", ["10.00"])]⟩ listingFields "").str) ∧
    (("shipping_cost__in", ["5.00"]) ∈
      (gather_filters ⟨[("shipping_cost", ["5.00"])]⟩ listingFields "").str) ∧
    (("product__part_numbers__in", ["X123"]) ∈
      (gather_filters ⟨[("part_numbers", ["X123"])]⟩ cpuFields "product__").str) :=
  ⟨(gather_filters_string_membership ⟨[("id", ["3"])]⟩ listingFields ""
      ⟨"id", "ID", "BigAutoField", true, false⟩ (by decide) (by decide) rfl rfl
      (by decide) (by decide) (by decide) ["3"]).mpr ⟨by decide, by decide⟩,
   (gather_filters_string_membership ⟨[("price", ["10.00"])]⟩ listingFields ""
      ⟨"price", "Price", "DecimalField", true, false⟩ (by decide) (by decide) rfl rfl
      (by decide) (by decide) (by decide) ["10.00"]).mpr ⟨by decide, by decide⟩,
   (gather_filters_string_membership ⟨[("shipping_cost", ["5.00"])]⟩ listingFields ""
      ⟨"shipping_cost", "shipping cost", "DecimalField", true, false⟩
      (by decide) (by decide) rfl rfl
      (by decide) (by decide) (by decide) ["5.00"]).mpr ⟨by decide, by decide⟩,
   (gather_filters_string_membership ⟨[("part_numbers", ["X123"])]⟩ cpuFields "product__"
      ⟨"part_numbers", "Part Numbers", "JSONField", true, false⟩
      (by decide) (by decide) rfl rfl
      (by decide) (by decide) (by decide) ["X123"]).mpr ⟨by decide, by decide⟩⟩
